import Mathlib

/-
  Verification of the session-management and paginated-extraction core of the
  IDEN-Challenge automation scripts (src/enhanced_extract_data.py and
  src/session_manager.py), via a shallow embedding in Lean 4.

  Conventions of the embedding:
  * JSON values are modelled by the inductive `JVal`; Python truthiness of a
    JSON value is `JVal.truthy`.
  * Extracted rows (Python dicts of column name to cell text) are association
    lists `Row := List (String × String)`; dict lookup is first-match lookup.
  * Timestamps are integers (minutes); `datetime.fromisoformat` failures are
    modelled by `Option`.
  * The live page driven by Playwright is an abstract state type `σ` together
    with a record of observation/transition functions (`PageEnv`), one per
    Playwright primitive the extraction loop calls.
-/

/-- A JSON value, as produced by Python's `json.load`. -/
inductive JVal where
  | jnull
  | jbool (b : Bool)
  | jnum (n : Int)
  | jstr (s : String)
  | jarr (xs : List JVal)
  | jobj (fields : List (String × JVal))

/-- Python truthiness of a JSON value (`if data:`): null, false, 0, the empty
string, the empty array and the empty object are falsy. -/
def JVal.truthy : JVal → Bool
  | .jnull => false
  | .jbool b => b
  | .jnum n => n != 0
  | .jstr s => s != ""
  | .jarr xs => !xs.isEmpty
  | .jobj fs => !fs.isEmpty

/-- `data.get(k)` on a Python value: first-match field lookup on an object,
`None` on anything else. -/
def JVal.get : JVal → String → Option JVal
  | .jobj fs, k => go fs k
  | _, _ => none
where
  go : List (String × JVal) → String → Option JVal
    | [], _ => none
    | (k, v) :: rest, key => if k = key then some v else go rest key

/-- `isinstance(data, dict)`. -/
def JVal.isObj : JVal → Bool
  | .jobj _ => true
  | _ => false

/-- `k in data` for a Python dict (`False` on non-dicts, matching the guarded
uses in the source). -/
def JVal.hasKey (v : JVal) (k : String) : Bool :=
  (v.get k).isSome

/-- An extracted product row: an ordered mapping of column name to cell text,
as built by the in-page JavaScript of `extract_table_data`. -/
abbrev Row := List (String × String)

/-- First-match association lookup (Python `dict.get` for dicts with unique
keys). -/
def alookup : List (String × String) → String → Option String
  | [], _ => none
  | (k, v) :: rest, key => if k = key then some v else alookup rest key

/-- The value of `row.get(k)` as seen by a Python `or` chain: `None` and the
empty string are both falsy and are collapsed to `none`. -/
def rowGetTruthy (r : Row) (k : String) : Option String :=
  match alookup r k with
  | some s => if s = "" then none else some s
  | none => none

/-- Insertion of one element into a list sorted by the boolean relation `le`. -/
def insSorted (le : String × String → String × String → Bool)
    (x : String × String) : List (String × String) → List (String × String)
  | [] => [x]
  | y :: ys => if le x y then x :: y :: ys else y :: insSorted le x ys

/-- Sort a row by column name (the `sort_keys=True` of `json.dumps`). -/
def sortRowByKey (r : Row) : Row :=
  r.foldr (insSorted (fun a b => decide (a.1 ≤ b.1))) []

/-- Canonical serialization of a whole row, mirroring
`json.dumps(row, sort_keys=True)` in `extract_table_data`: the row printed as
a JSON object with its keys in sorted order. -/
def canonRow (r : Row) : String :=
  "\x7b" ++
    String.intercalate ", "
      ((sortRowByKey r).map (fun kv => "\"" ++ kv.1 ++ "\": \"" ++ kv.2 ++ "\"")) ++
  "\x7d"

/-- The identity key of a row, mirroring
`row.get('Item #') or row.get('Item') or row.get('Name') or json.dumps(row, sort_keys=True)`
(`or` skips both missing columns and empty-string cells). -/
def rowKey (r : Row) : String :=
  match rowGetTruthy r "Item #" with
  | some s => s
  | none =>
    match rowGetTruthy r "Item" with
    | some s => s
    | none =>
      match rowGetTruthy r "Name" with
      | some s => s
      | none => canonRow r

/-- The deduplication state of `extract_table_data`: `all_products` plus
`collected_keys` (the key set is modelled as a list, membership-tested). -/
structure Collector where
  products : List Row
  keys : List String
deriving Repr, DecidableEq

/-- Add one row to the collector exactly as the source does: compute its key,
then append the row (and record the key) only when the key is unseen. -/
def addRow (c : Collector) (r : Row) : Collector :=
  let k := rowKey r
  if k ∈ c.keys then c
  else { products := c.products ++ [r], keys := c.keys ++ [k] }

/-- Add a batch of freshly extracted rows (one `for row in new_rows:` loop). -/
def addRows (c : Collector) (rs : List Row) : Collector :=
  rs.foldl addRow c

/-- Feed the deduplicating collector several extraction passes in order,
starting from the empty state, and return the collected row list. -/
def collectPasses (passes : List (List Row)) : List Row :=
  (passes.foldl addRows { products := [], keys := [] }).products

theorem addRows_append (c : Collector) (xs ys : List Row) :
    addRows c (xs ++ ys) = addRows (addRows c xs) ys := by
  simp [addRows, List.foldl_append]

theorem addRows_of_all_seen (rs : List Row) :
    ∀ c : Collector, (∀ r ∈ rs, rowKey r ∈ c.keys) → addRows c rs = c := by
  induction rs with
  | nil => intro c _; rfl
  | cons r rest ih =>
    intro c h
    have hr : rowKey r ∈ c.keys := h r (List.mem_cons_self r rest)
    have : addRow c r = c := by simp [addRow, hr]
    simp only [addRows, List.foldl_cons]
    rw [show List.foldl addRow (addRow c r) rest = addRows (addRow c r) rest from rfl,
      this]
    exact ih c (fun x hx => h x (List.mem_cons_of_mem r hx))

theorem addRows_of_all_fresh (rs : List Row) :
    ∀ c : Collector, (rs.map rowKey).Nodup →
      (∀ r ∈ rs, rowKey r ∉ c.keys) →
      addRows c rs = { products := c.products ++ rs, keys := c.keys ++ rs.map rowKey } := by
  induction rs with
  | nil => intro c _ _; simp [addRows]
  | cons r rest ih =>
    intro c hnd hfresh
    have hr : rowKey r ∉ c.keys := hfresh r (List.mem_cons_self r rest)
    have hstep : addRow c r =
        { products := c.products ++ [r], keys := c.keys ++ [rowKey r] } := by
      simp [addRow, hr]
    have hcons : rowKey r ∉ rest.map rowKey ∧ (rest.map rowKey).Nodup := by
      rw [List.map_cons] at hnd
      exact List.nodup_cons.mp hnd
    have hnd' : (rest.map rowKey).Nodup := hcons.2
    have hne : rowKey r ∉ rest.map rowKey := hcons.1
    have hfresh' : ∀ x ∈ rest, rowKey x ∉ (c.keys ++ [rowKey r]) := by
      intro x hx
      intro hmem
      rcases List.mem_append.mp hmem with h1 | h2
      · exact hfresh x (List.mem_cons_of_mem r hx) h1
      · have : rowKey x = rowKey r := by simpa using h2
        exact hne (this ▸ List.mem_map_of_mem rowKey hx)
    simp only [addRows, List.foldl_cons]
    rw [show List.foldl addRow (addRow c r) rest = addRows (addRow c r) rest from rfl,
      hstep, ih _ hnd' hfresh']
    simp

/-- Claim C5: feeding the extraction collector two passes, where pass 2
repeats all of pass 1's rows and then one new row, yields exactly pass 1
followed by the new row, in first-seen order; keys are derived by the fixed
preference order `Item #`, `Item`, `Name`, whole-row serialization
(embodied by `rowKey`). -/
theorem c5_dedup_two_passes (p1 : List Row) (newRow : Row)
    (hnd : (p1.map rowKey).Nodup)
    (hfresh : rowKey newRow ∉ p1.map rowKey) :
    collectPasses [p1, p1 ++ [newRow]] = p1 ++ [newRow] := by
  have h1 : addRows { products := [], keys := [] } p1 =
      { products := p1, keys := p1.map rowKey } := by
    have := addRows_of_all_fresh p1 { products := [], keys := [] } hnd
      (by intro r _ h; simp at h)
    simpa using this
  have h2 : addRows { products := p1, keys := p1.map rowKey } p1 =
      { products := p1, keys := p1.map rowKey } := by
    apply addRows_of_all_seen
    intro r hr
    exact List.mem_map_of_mem rowKey hr
  have h3 : addRow { products := p1, keys := p1.map rowKey } newRow =
      { products := p1 ++ [newRow], keys := p1.map rowKey ++ [rowKey newRow] } := by
    simp [addRow, hfresh]
  show (addRows (addRows { products := [], keys := [] } p1) (p1 ++ [newRow])).products
      = p1 ++ [newRow]
  rw [h1, addRows_append, h2]
  show (addRows { products := p1, keys := p1.map rowKey } [newRow]).products
      = p1 ++ [newRow]
  simp [addRows, h3]

/-- Witness for C5 at a concrete input: two name-keyed rows in pass 1 and a
third, new row appearing only in pass 2. -/
theorem c5_dedup_two_passes_witness :
    collectPasses
        [[[("Name", "Alpha")], [("Name", "Beta")]],
         [[("Name", "Alpha")], [("Name", "Beta")], [("Name", "Gamma")]]] =
      [[("Name", "Alpha")], [("Name", "Beta")], [("Name", "Gamma")]] := by
  have := c5_dedup_two_passes
    [[("Name", "Alpha")], [("Name", "Beta")]] [("Name", "Gamma")]
    (by decide) (by decide)
  simpa using this

/-- `pat` is a character-prefix of `hay`. -/
def chHasPfx : List Char → List Char → Bool
  | [], _ => true
  | _ :: _, [] => false
  | a :: as, b :: bs => a == b && chHasPfx as bs

/-- `pat` occurs as a contiguous run inside `hay`. -/
def chHasSub (pat : List Char) : List Char → Bool
  | [] => chHasPfx pat []
  | c :: rest => chHasPfx pat (c :: rest) || chHasSub pat rest

/-- Python's `pat in hay` substring test. -/
def strContainsSub (hay pat : String) : Bool :=
  chHasSub pat.toList hay.toList

/-- ASCII lower-casing of one character (model of Python's `str.lower` /
JavaScript's `toLowerCase` on the identifier-like names the code inspects). -/
def lcChar (c : Char) : Char :=
  if 65 ≤ c.toNat ∧ c.toNat ≤ 90 then Char.ofNat (c.toNat + 32) else c

/-- ASCII upper-casing of one character. -/
def ucChar (c : Char) : Char :=
  if 97 ≤ c.toNat ∧ c.toNat ≤ 122 then Char.ofNat (c.toNat - 32) else c

/-- `s.lower()`. -/
def strLower (s : String) : String := String.mk (s.toList.map lcChar)

/-- `s.toUpperCase()`. -/
def strUpper (s : String) : String := String.mk (s.toList.map ucChar)

/-- `s.startsWith(pre)`. -/
def strStarts (s pre : String) : Bool := chHasPfx pre.toList s.toList

/-- The storage-entry markers of `_extract_tokens`
(`["token","auth","jwt","bearer","session"]`). -/
def tokenMarkers : List String := ["token", "auth", "jwt", "bearer", "session"]

/-- The window-global markers of `_extract_tokens` (`["token","auth","jwt"]`). -/
def windowTokenMarkers : List String := ["token", "auth", "jwt"]

/-- `any(tok in k.lower() for tok in ms)`. -/
def containsAnyMarker (ms : List String) (k : String) : Bool :=
  ms.any (fun t => strContainsSub (strLower k) t)

/-- Python dict assignment `d[k] = v`: overwrite in place if the key exists,
else append. -/
def dictInsert (m : List (String × String)) (k v : String) :
    List (String × String) :=
  if m.any (fun kv => kv.1 = k) then
    m.map (fun kv => if kv.1 = k then (k, v) else kv)
  else m ++ [(k, v)]

/-- A sequence of Python dict assignments applied left to right. -/
def dictExtend (m : List (String × String)) (adds : List (String × String)) :
    List (String × String) :=
  adds.foldl (fun acc kv => dictInsert acc kv.1 kv.2) m

/-- `a or b` on optional lookups. -/
def optOr (a b : Option String) : Option String :=
  match a with
  | some v => some v
  | none => b

/-- The localStorage filter of `_extract_tokens`: keep entries whose value is
a string longer than 8 characters and whose name contains one of the five
markers, case-insensitively. -/
def lsCandidates (ls : List (String × JVal)) : List (String × String) :=
  ls.filterMap (fun kv =>
    match kv.2 with
    | .jstr s =>
      if 8 < s.length && containsAnyMarker tokenMarkers kv.1 then some (kv.1, s)
      else none
    | _ => none)

/-- The in-page snapshot of window globals taken by `_extract_tokens`: keys
that are fully upper-case or start with `__`, capped at the first 150 such
keys, keeping only string values longer than 15 characters. -/
def winGlobals (window : List (String × JVal)) : List (String × String) :=
  ((window.filter (fun kv => strUpper kv.1 == kv.1 || strStarts kv.1 "__")).take 150).filterMap
    (fun kv =>
      match kv.2 with
      | .jstr s => if 15 < s.length then some (kv.1, s) else none
      | _ => none)

/-- The Python-side filter on the window snapshot: keep names containing one
of `token`, `auth`, `jwt`. -/
def winCandidates (window : List (String × JVal)) : List (String × String) :=
  (winGlobals window).filter (fun kv => containsAnyMarker windowTokenMarkers kv.1)

/-- `_extract_tokens`: the candidates dict is filled from localStorage first,
then from the window snapshot (later assignments overwrite). -/
def extractTokens (ls window : List (String × JVal)) : List (String × String) :=
  dictExtend (dictExtend [] (lsCandidates ls)) (winCandidates window)

theorem alookup_eq_none_of_not_mem_keys (m : List (String × String)) (key : String)
    (h : key ∉ m.map Prod.fst) : alookup m key = none := by
  induction m with
  | nil => rfl
  | cons kv rest ih =>
    have h1 : kv.1 ≠ key := by
      intro he; exact h (by simp [he])
    have h2 : key ∉ rest.map Prod.fst := by
      intro hm; exact h (by simp [hm])
    cases kv with
    | mk k v => simp only [alookup]; rw [if_neg (by simpa using h1)]; exact ih h2

theorem alookup_append (xs ys : List (String × String)) (key : String) :
    alookup (xs ++ ys) key = optOr (alookup xs key) (alookup ys key) := by
  induction xs with
  | nil => simp [alookup, optOr]
  | cons kv rest ih =>
    cases kv with
    | mk k v =>
      by_cases h : k = key
      · simp [alookup, h, optOr]
      · simp [alookup, h, ih]

theorem alookup_map_overwrite_ne (m : List (String × String)) (k v key : String)
    (h : key ≠ k) :
    alookup (m.map (fun kv => if kv.1 = k then (k, v) else kv)) key
      = alookup m key := by
  induction m with
  | nil => rfl
  | cons kv rest ih =>
    obtain ⟨k0, v0⟩ := kv
    by_cases h0 : k0 = k
    · subst h0
      have hhead : (if ((k0, v0) : String × String).1 = k0 then (k0, v) else (k0, v0))
          = (k0, v) := by simp
      rw [List.map_cons, hhead]
      simp only [alookup]
      rw [if_neg (fun he => h he.symm), if_neg (fun he => h he.symm), ih]
    · have hhead : (if ((k0, v0) : String × String).1 = k then (k, v) else (k0, v0))
          = (k0, v0) := by simp [h0]
      rw [List.map_cons, hhead]
      simp only [alookup]
      by_cases hk : k0 = key
      · rw [if_pos hk, if_pos hk]
      · rw [if_neg hk, if_neg hk, ih]

theorem alookup_map_overwrite_eq (m : List (String × String)) (k v : String)
    (h : m.any (fun kv => kv.1 = k) = true) :
    alookup (m.map (fun kv => if kv.1 = k then (k, v) else kv)) k = some v := by
  induction m with
  | nil => simp at h
  | cons kv rest ih =>
    obtain ⟨k0, v0⟩ := kv
    by_cases h0 : k0 = k
    · subst h0
      have hhead : (if ((k0, v0) : String × String).1 = k0 then (k0, v) else (k0, v0))
          = (k0, v) := by simp
      rw [List.map_cons, hhead]
      simp only [alookup]
      simp
    · have hhead : (if ((k0, v0) : String × String).1 = k then (k, v) else (k0, v0))
          = (k0, v0) := by simp [h0]
      rw [List.map_cons, hhead]
      simp only [alookup]
      rw [if_neg h0]
      apply ih
      simpa [h0] using h

theorem not_any_key_iff (m : List (String × String)) (k : String) :
    m.any (fun kv => kv.1 = k) = false ↔ k ∉ m.map Prod.fst := by
  constructor
  · intro h hmem
    rcases List.mem_map.mp hmem with ⟨kv, hkv, hfst⟩
    have : m.any (fun kv => kv.1 = k) = true :=
      List.any_eq_true.mpr ⟨kv, hkv, by simpa using hfst⟩
    rw [h] at this; exact Bool.false_ne_true this
  · intro h
    by_contra hb
    have : m.any (fun kv => kv.1 = k) = true := by
      cases hx : m.any (fun kv => kv.1 = k) with
      | true => rfl
      | false => exact absurd hx hb
    rcases List.any_eq_true.mp this with ⟨kv, hkv, hp⟩
    exact h (List.mem_map.mpr ⟨kv, hkv, by simpa using hp⟩)

theorem alookup_dictInsert (m : List (String × String)) (k v key : String) :
    alookup (dictInsert m k v) key = if key = k then some v else alookup m key := by
  by_cases hmem : m.any (fun kv => kv.1 = k) = true
  · simp only [dictInsert, if_pos hmem]
    by_cases hk : key = k
    · subst hk; rw [if_pos rfl]; exact alookup_map_overwrite_eq m key v hmem
    · rw [if_neg hk]; exact alookup_map_overwrite_ne m k v key hk
  · have hfalse : m.any (fun kv => kv.1 = k) = false := by
      cases hx : m.any (fun kv => kv.1 = k) with
      | true => exact absurd hx hmem
      | false => rfl
    rw [show dictInsert m k v = m ++ [(k, v)] from by simp [dictInsert, hfalse]]
    rw [alookup_append]
    by_cases hk : key = k
    · subst hk
      rw [alookup_eq_none_of_not_mem_keys m key ((not_any_key_iff m key).mp hfalse)]
      simp only [alookup]
      simp [optOr]
    · rw [if_neg hk]
      have hsingle : alookup [(k, v)] key = none := by
        simp only [alookup]
        rw [if_neg (fun he => hk he.symm)]
      rw [hsingle]
      cases alookup m key <;> simp [optOr]

theorem optOr_none (a : Option String) : optOr a none = a := by
  cases a <;> rfl

theorem alookup_dictExtend (adds : List (String × String)) :
    ∀ (m : List (String × String)) (key : String), (adds.map Prod.fst).Nodup →
      alookup (dictExtend m adds) key = optOr (alookup adds key) (alookup m key) := by
  induction adds with
  | nil => intro m key _; simp [dictExtend, alookup, optOr]
  | cons kv rest ih =>
    intro m key hnd
    obtain ⟨k, v⟩ := kv
    have hcons : k ∉ rest.map Prod.fst ∧ (rest.map Prod.fst).Nodup := by
      rw [List.map_cons] at hnd
      exact List.nodup_cons.mp hnd
    have hstep : dictExtend m ((k, v) :: rest) = dictExtend (dictInsert m k v) rest := by
      simp [dictExtend]
    rw [hstep, ih _ key hcons.2, alookup_dictInsert]
    simp only [alookup]
    by_cases hk : key = k
    · subst hk
      rw [if_pos rfl, if_pos rfl,
        alookup_eq_none_of_not_mem_keys rest key hcons.1]
      rfl
    · rw [if_neg hk, if_neg (fun he => hk he.symm)]

theorem keys_filterMap_jval_sublist
    (f : String × JVal → Option (String × String))
    (hf : ∀ kv r, f kv = some r → r.1 = kv.1) :
    ∀ l : List (String × JVal),
      ((l.filterMap f).map Prod.fst).Sublist (l.map Prod.fst) := by
  intro l
  induction l with
  | nil => simp
  | cons kv rest ih =>
    cases hfv : f kv with
    | none =>
      rw [List.filterMap_cons, hfv, List.map_cons]
      exact ih.trans (List.sublist_cons_self kv.1 (rest.map Prod.fst))
    | some r =>
      rw [List.filterMap_cons, hfv, List.map_cons, List.map_cons,
        hf kv r hfv]
      exact ih.cons₂ kv.1

theorem lsCandidates_key_preserving (kv : String × JVal) (r : String × String)
    (h : (match kv.2 with
          | JVal.jstr s =>
            if 8 < s.length && containsAnyMarker tokenMarkers kv.1 then some (kv.1, s)
            else none
          | _ => none) = some r) : r.1 = kv.1 := by
  obtain ⟨k0, v0⟩ := kv
  cases v0 with
  | jstr s =>
    dsimp only at h
    split at h
    · cases h; rfl
    · cases h
  | jnull => exact Option.noConfusion h
  | jbool b => exact Option.noConfusion h
  | jnum n => exact Option.noConfusion h
  | jarr xs => exact Option.noConfusion h
  | jobj fs => exact Option.noConfusion h

theorem keys_lsCandidates_nodup (ls : List (String × JVal))
    (h : (ls.map Prod.fst).Nodup) : ((lsCandidates ls).map Prod.fst).Nodup :=
  ((keys_filterMap_jval_sublist _ lsCandidates_key_preserving ls).nodup h)

theorem winGlobals_key_preserving (kv : String × JVal) (r : String × String)
    (h : (match kv.2 with
          | JVal.jstr s => if 15 < s.length then some (kv.1, s) else none
          | _ => none) = some r) : r.1 = kv.1 := by
  obtain ⟨k0, v0⟩ := kv
  cases v0 with
  | jstr s =>
    dsimp only at h
    split at h
    · cases h; rfl
    · cases h
  | jnull => exact Option.noConfusion h
  | jbool b => exact Option.noConfusion h
  | jnum n => exact Option.noConfusion h
  | jarr xs => exact Option.noConfusion h
  | jobj fs => exact Option.noConfusion h

theorem keys_winCandidates_nodup (window : List (String × JVal))
    (h : (window.map Prod.fst).Nodup) :
    ((winCandidates window).map Prod.fst).Nodup := by
  have h1 : ((winGlobals window).map Prod.fst).Sublist
      ((((window.filter (fun kv => strUpper kv.1 == kv.1 || strStarts kv.1 "__")).take 150)).map Prod.fst) :=
    keys_filterMap_jval_sublist _ winGlobals_key_preserving _
  have h2 : ((((window.filter (fun kv => strUpper kv.1 == kv.1 || strStarts kv.1 "__")).take 150)).map Prod.fst).Sublist
      (window.map Prod.fst) :=
    ((List.take_sublist _ _).trans (List.filter_sublist _)).map Prod.fst
  have h3 : ((winCandidates window).map Prod.fst).Sublist
      ((winGlobals window).map Prod.fst) :=
    (List.filter_sublist _).map Prod.fst
  exact ((h3.trans h1).trans h2).nodup h

theorem mem_lsCandidates_iff (ls : List (String × JVal)) (k v : String) :
    (k, v) ∈ lsCandidates ls ↔
      ((k, JVal.jstr v) ∈ ls ∧ 8 < v.length ∧
        containsAnyMarker tokenMarkers k = true) := by
  constructor
  · intro h
    rcases List.mem_filterMap.mp h with ⟨kv, hmem, heq⟩
    obtain ⟨k0, v0⟩ := kv
    cases v0 with
    | jstr s =>
      dsimp only at heq
      split at heq
      next hc =>
        cases heq
        simp only [Bool.and_eq_true, decide_eq_true_eq] at hc
        exact ⟨hmem, hc.1, hc.2⟩
      next hc => cases heq
    | jnull => exact Option.noConfusion heq
    | jbool b => exact Option.noConfusion heq
    | jnum n => exact Option.noConfusion heq
    | jarr xs => exact Option.noConfusion heq
    | jobj fs => exact Option.noConfusion heq
  · rintro ⟨hmem, hlen, hmark⟩
    apply List.mem_filterMap.mpr
    refine ⟨(k, JVal.jstr v), hmem, ?_⟩
    dsimp only
    rw [if_pos (by simp [hlen, hmark])]

theorem mem_winCandidates_iff (window : List (String × JVal))
    (hcap : window.length ≤ 150) (k v : String) :
    (k, v) ∈ winCandidates window ↔
      ((k, JVal.jstr v) ∈ window ∧
        (strUpper k == k || strStarts k "__") = true ∧ 15 < v.length ∧
        containsAnyMarker windowTokenMarkers k = true) := by
  have htake : (window.filter (fun kv => strUpper kv.1 == kv.1 || strStarts kv.1 "__")).take 150
      = window.filter (fun kv => strUpper kv.1 == kv.1 || strStarts kv.1 "__") :=
    List.take_of_length_le (le_trans (List.length_filter_le _ _) hcap)
  constructor
  · intro h
    rcases List.mem_filter.mp h with ⟨hg, hpred⟩
    rcases List.mem_filterMap.mp (by rw [winGlobals, htake] at hg; exact hg) with
      ⟨kv, hmemf, heq⟩
    rcases List.mem_filter.mp hmemf with ⟨hmemw, hupper⟩
    obtain ⟨k0, v0⟩ := kv
    cases v0 with
    | jstr s =>
      dsimp only at heq
      split at heq
      next hc =>
        cases heq
        exact ⟨hmemw, by simpa using hupper, hc, hpred⟩
      next hc => cases heq
    | jnull => exact Option.noConfusion heq
    | jbool b => exact Option.noConfusion heq
    | jnum n => exact Option.noConfusion heq
    | jarr xs => exact Option.noConfusion heq
    | jobj fs => exact Option.noConfusion heq
  · rintro ⟨hmem, hupper, hlen, hmark⟩
    apply List.mem_filter.mpr
    refine ⟨?_, hmark⟩
    rw [winGlobals, htake]
    apply List.mem_filterMap.mpr
    refine ⟨(k, JVal.jstr v), List.mem_filter.mpr ⟨hmem, by simpa using hupper⟩, ?_⟩
    dsimp only
    rw [if_pos hlen]

/-- Claim C9 (amended): the token harvester returns exactly (i) the
localStorage entries whose names contain one of the case-insensitive markers
`token`, `auth`, `jwt`, `bearer`, `session` and whose string values are longer
than 8 characters, overlaid with (ii) the upper-case or `__`-prefixed window
globals (among the first 150 such names) holding string values longer than 15
characters whose names contain one of the markers `token`, `auth`, `jwt`
only — not `bearer` or `session`; an empty result is not an error. -/
theorem c9_token_harvester_characterization
    (ls window : List (String × JVal)) (key : String)
    (hls : (ls.map Prod.fst).Nodup) (hwin : (window.map Prod.fst).Nodup)
    (hcap : window.length ≤ 150) :
    (alookup (extractTokens ls window) key
        = optOr (alookup (winCandidates window) key)
            (alookup (lsCandidates ls) key))
    ∧ (∀ v, (key, v) ∈ lsCandidates ls ↔
        ((key, JVal.jstr v) ∈ ls ∧ 8 < v.length ∧
          containsAnyMarker tokenMarkers key = true))
    ∧ (∀ v, (key, v) ∈ winCandidates window ↔
        ((key, JVal.jstr v) ∈ window ∧
          (strUpper key == key || strStarts key "__") = true ∧ 15 < v.length ∧
          containsAnyMarker windowTokenMarkers key = true)) := by
  refine ⟨?_, fun v => mem_lsCandidates_iff ls key v,
    fun v => mem_winCandidates_iff window hcap key v⟩
  have h1 : alookup (extractTokens ls window) key
      = optOr (alookup (winCandidates window) key)
          (alookup (dictExtend [] (lsCandidates ls)) key) :=
    alookup_dictExtend (winCandidates window) _ key (keys_winCandidates_nodup window hwin)
  have h2 : alookup (dictExtend [] (lsCandidates ls)) key
      = optOr (alookup (lsCandidates ls) key) (alookup [] key) :=
    alookup_dictExtend (lsCandidates ls) [] key (keys_lsCandidates_nodup ls hls)
  rw [h1, h2]
  rw [show alookup [] key = none from rfl, optOr_none]

/-- Witness for C9 at concrete inputs: one qualifying localStorage entry and
one qualifying window global. -/
theorem c9_token_harvester_witness :
    alookup
        (extractTokens [("access_token", JVal.jstr "abcdefghi")]
          [("__AUTHVAL", JVal.jstr "0123456789abcdef")]) "access_token"
      = optOr
          (alookup (winCandidates [("__AUTHVAL", JVal.jstr "0123456789abcdef")])
            "access_token")
          (alookup (lsCandidates [("access_token", JVal.jstr "abcdefghi")])
            "access_token") :=
  (c9_token_harvester_characterization
    [("access_token", JVal.jstr "abcdefghi")]
    [("__AUTHVAL", JVal.jstr "0123456789abcdef")] "access_token"
    (by simp) (by simp) (by simp)).1

/-- Modelled from the spec words of C9, for comparison with the code: a window
global qualifies when its name is upper-case or underscore-prefixed, its value
is a string beyond the minimum length, and its name contains one of the five
markers `token`, `auth`, `jwt`, `bearer`, `session`. -/
def specWindowTokenLike (k : String) (v : JVal) : Bool :=
  (strUpper k == k || strStarts k "__") &&
  (match v with
   | JVal.jstr s => decide (15 < s.length)
   | _ => false) &&
  containsAnyMarker tokenMarkers k

/-- Counterexample to C9 as stated: the window global `MYSESSIONVALUE`
matches the spec's five-marker rule (it contains `session`) and carries a
16-character string value, yet `_extract_tokens` returns nothing for it,
because the code filters window globals with the markers `token`, `auth`,
`jwt` only. -/
theorem c9_session_marker_global_excluded :
    specWindowTokenLike "MYSESSIONVALUE" (JVal.jstr "abcdefgh12345678") = true
    ∧ extractTokens [] [("MYSESSIONVALUE", JVal.jstr "abcdefgh12345678")] = [] := by
  constructor
  · decide
  · decide

/-- The metadata `_parse_session_file` keeps in `self._loaded_session_meta`:
the dict comprehension keeps only the keys actually present in the file
(a present key with a null value is kept as `some jnull`). -/
structure LoadedMeta where
  created_at : Option JVal
  last_verified : Option JVal
  username : Option JVal

/-- The observable outcome of `_parse_session_file`: the returned storage
state, plus the `_loaded_session_meta` and `_loaded_tokens` side effects. -/
structure ParseResult where
  storage : Option JVal
  meta : Option LoadedMeta
  tokens : Option JVal

/-- What reading one JSON file can yield: the file is absent, it exists but
fails the size threshold (`< 5` bytes for the session file, `≤ 5` for the raw
fallback file), `json.load` raises, or it parses to a value. -/
inductive FileRead where
  | missing
  | tooSmall
  | malformed
  | ok (v : JVal)

/-- Truthiness of `v.get(k)` (a missing key is `None`, hence falsy). -/
def jTruthyField (v : JVal) (k : String) : Bool :=
  ((v.get k).map JVal.truthy).getD false

/-- The raw-playwright-state fallback of `_parse_session_file` (lines 81-89):
accepted only when the raw file parses to a dict with truthy `cookies` or
`origins`. -/
def rawFallback (raw : FileRead) : Option JVal :=
  match raw with
  | .ok v =>
    if v.isObj && (jTruthyField v "cookies" || jTruthyField v "origins") then some v
    else none
  | _ => none

/-- The `_loaded_tokens` side effect (line 95): kept only when `tokens` is a
truthy dict. -/
def tokensField (data : JVal) : Option JVal :=
  match data.get "tokens" with
  | some t => if t.truthy && t.isObj then some t else none
  | none => none

/-- The legacy-raw-format test of `_parse_session_file` (line 98):
`isinstance(data, dict) and ("cookies" in data or "origins" in data)` —
key membership, not truthiness. -/
def legacyShape (d : JVal) : Bool :=
  d.isObj && (d.hasKey "cookies" || d.hasKey "origins")

/-- `DataExtractor._parse_session_file`: `now` is the ISO timestamp
`self._now_iso()` would produce while synthesizing legacy metadata.
A wrapped file whose `storage_state` value is JSON null returns `None`
(Python's `data.get` hands the null back as `None`). The `version` field is
never inspected. -/
def parseSessionFile (now : String) (mainF rawF : FileRead) : ParseResult :=
  match mainF with
  | .missing => { storage := rawFallback rawF, meta := none, tokens := none }
  | .tooSmall => { storage := rawFallback rawF, meta := none, tokens := none }
  | .malformed => { storage := none, meta := none, tokens := none }
  | .ok data =>
    let toks := tokensField data
    if legacyShape data then
      { storage := some data
      , meta := some { created_at := some (JVal.jstr now)
                     , last_verified := some (JVal.jstr now)
                     , username := none }
      , tokens := toks }
    else if data.isObj && data.hasKey "storage_state" then
      { storage :=
          match data.get "storage_state" with
          | some JVal.jnull => none
          | some v => some v
          | none => none
      , meta := some { created_at := data.get "created_at"
                     , last_verified := data.get "last_verified"
                     , username := data.get "username" }
      , tokens := toks }
    else { storage := none, meta := none, tokens := toks }

/-- The session-reuse decision of `DataExtractor.init_browser` (lines
251-262): reuse iff not forcing login and the parsed storage state is truthy
with truthy `cookies` or `origins`. No age condition is consulted (the age is
only printed). A truthy non-dict storage state crashes upward in Python and
so also yields no reusable context; it is modelled as `false` here. -/
def initBrowserReusesSession (forceLogin : Bool) (storage : Option JVal) : Bool :=
  !forceLogin &&
    (match storage with
     | some st => st.truthy && (jTruthyField st "cookies" || jTruthyField st "origins")
     | none => false)

/-- `DataExtractor._session_age_minutes`, with `fromisoformat` abstracted as
`parseTs` (returns `none` where Python would raise) and time measured in
integer minutes. -/
def sessionAgeMinutes (parseTs : JVal → Option Int) (now : Int)
    (meta : Option LoadedMeta) : Option Int :=
  match meta with
  | none => none
  | some m =>
    match m.last_verified with
    | none => none
    | some v => if v.truthy then (parseTs v).map (fun t => now - t) else none

/-- `session_manager.DEFAULT_MAX_AGE_MINUTES = 8 * 60`. -/
def DEFAULT_MAX_AGE_MINUTES : Int := 8 * 60

/-- The meta block of a SessionManager session file, as accepted by
`SessionMeta(**meta_raw)`: exactly the five dataclass fields. `last_verified`
is `none` when `datetime.fromisoformat` would raise on it (that exception is
swallowed, skipping the age check). -/
structure SMMetaRaw where
  version : Int
  created_at : String
  last_verified : Option Int
  username : String
  max_age_minutes : Int

/-- A parsed SessionManager session file: `meta` is `none` when the `meta`
key is absent, falsy, or not of the exact dataclass shape (all of which make
`_try_load_session` bail out); `storage_state` is `none` when absent. -/
structure SMSessionFile where
  meta : Option SMMetaRaw
  storage_state : Option JVal

/-- `SessionManager._try_load_session` (lines 145-168): the loaded bundle, or
`none` when the file is missing/malformed (`file = none`), the meta or
storage-state entries are missing or falsy, or the age check fails. An
unparsable `last_verified` skips the age check and loads anyway. -/
def tryLoadSession (now : Int) (file : Option SMSessionFile) :
    Option (SMMetaRaw × JVal) :=
  match file with
  | none => none
  | some d =>
    match d.meta, d.storage_state with
    | some m, some st =>
      if st.truthy then
        match m.last_verified with
        | some last =>
          if m.max_age_minutes < now - last then none else some (m, st)
        | none => some (m, st)
      else none
    | _, _ => none

/-- Whether `ensure_session` treats the stored bundle as usable for reuse:
`_try_load_session` runs only without `force_login`, and the loaded storage
state is what `_prime_local_storage` replays into the context. -/
def smUsableForReuse (forceLogin : Bool) (now : Int)
    (file : Option SMSessionFile) : Bool :=
  !forceLogin && (tryLoadSession now file).isSome

/-- Truthiness of the `_loaded_session_meta` dict: the comprehension of
`_parse_session_file` keeps exactly the keys present in the file, so the dict
is falsy precisely when all three tracked keys are absent. -/
def LoadedMeta.truthy (m : LoadedMeta) : Bool :=
  m.created_at.isSome || m.last_verified.isSome || m.username.isSome

/-- `DataExtractor._wrap_storage_state` (lines 68-76): `created_at` is
`self._loaded_session_meta.get("created_at") if self._loaded_session_meta
else self._now_iso()` — a truthiness test on the loaded dict, so an empty
(falsy) metadata dict also falls back to now, and only a truthy dict lacking
the key yields JSON null; `last_verified` is always now. -/
def wrapStorageState (meta : Option LoadedMeta) (now username : String)
    (storage : JVal) : JVal :=
  JVal.jobj
    [("version", JVal.jnum 1),
     ("created_at",
       match meta with
       | some m => if m.truthy then m.created_at.getD JVal.jnull else JVal.jstr now
       | none => JVal.jstr now),
     ("last_verified", JVal.jstr now),
     ("username", JVal.jstr username),
     ("storage_state", storage)]

/-- The session file written by `DataExtractor._save_session` (both branches
write the same wrapped object; the `tokens` key is added only when the
current run captured a truthy token dict, and holds exactly `self._tokens`). -/
def saveSessionFile (meta : Option LoadedMeta) (now username : String)
    (storage : JVal) (curTokens : List (String × String)) : JVal :=
  let wrapped := wrapStorageState meta now username storage
  if curTokens.isEmpty then wrapped
  else
    match wrapped with
    | JVal.jobj fs =>
      JVal.jobj (fs ++
        [("tokens", JVal.jobj (curTokens.map (fun kv => (kv.1, JVal.jstr kv.2))))])
    | v => v

/-- Claim C2 (amended): in `SessionManager._try_load_session`, a loaded
bundle with well-formed metadata and a parsable `lastVerified` is usable for
reuse iff its storage state is truthy and `now - lastVerified ≤
maxAgeMinutes`; in particular an age of `maxAgeMinutes + 1` minutes is
not usable and an age of `maxAgeMinutes - 1` minutes is usable. In
`DataExtractor.init_browser`, by contrast, the reuse decision is
`initBrowserReusesSession`, which consults only the presence of cookies or
origins and no age at all. -/
theorem c2_session_usability
    (now : Int) (d : SMSessionFile) (m : SMMetaRaw) (st : JVal) (last : Int)
    (hm : d.meta = some m) (hst : d.storage_state = some st)
    (hlv : m.last_verified = some last) :
    (smUsableForReuse false now (some d) = true ↔
      (st.truthy = true ∧ now - last ≤ m.max_age_minutes))
    ∧ (now - last = m.max_age_minutes + 1 →
        smUsableForReuse false now (some d) = false)
    ∧ (now - last = m.max_age_minutes - 1 → st.truthy = true →
        smUsableForReuse false now (some d) = true) := by
  have hload : tryLoadSession now (some d) =
      if st.truthy then
        (if m.max_age_minutes < now - last then none else some (m, st))
      else none := by
    simp [tryLoadSession, hm, hst, hlv]
  have hiff : smUsableForReuse false now (some d) = true ↔
      (st.truthy = true ∧ now - last ≤ m.max_age_minutes) := by
    simp only [smUsableForReuse, Bool.not_false, Bool.true_and, hload]
    by_cases ht : st.truthy = true
    · rw [if_pos ht]
      by_cases hage : m.max_age_minutes < now - last
      · rw [if_pos hage]
        simp only [Option.isSome_none]
        constructor
        · intro h; exact absurd h (by simp)
        · rintro ⟨_, hle⟩; omega
      · rw [if_neg hage]
        simp only [Option.isSome_some]
        exact ⟨fun _ => ⟨ht, by omega⟩, fun _ => trivial⟩
    · rw [if_neg ht]
      simp only [Option.isSome_none]
      constructor
      · intro h; exact absurd h (by simp)
      · rintro ⟨ht2, _⟩; exact absurd ht2 ht
  refine ⟨hiff, ?_, ?_⟩
  · intro hage
    cases husable : smUsableForReuse false now (some d) with
    | false => rfl
    | true =>
      have := (hiff.mp husable).2
      omega
  · intro hage ht
    exact hiff.mpr ⟨ht, by omega⟩

/-- A storage state with one cookie, used by the C2 witness. -/
def cookieStorageEx : JVal := JVal.jobj [("cookies", JVal.jarr [JVal.jnull])]

/-- Metadata 481 minutes old at minute 1000 with max age 480. -/
def staleMetaEx : SMMetaRaw :=
  { version := 1, created_at := "t0", last_verified := some 519
  , username := "u", max_age_minutes := 480 }

/-- Metadata 479 minutes old at minute 1000 with max age 480. -/
def freshMetaEx : SMMetaRaw :=
  { version := 1, created_at := "t0", last_verified := some 521
  , username := "u", max_age_minutes := 480 }

/-- Witness for C2 at concrete inputs: max age 480 minutes, one bundle 481
minutes old (not usable) and one 479 minutes old (usable). -/
theorem c2_session_usability_witness :
    smUsableForReuse false 1000
        (some { meta := some staleMetaEx, storage_state := some cookieStorageEx })
      = false
    ∧ smUsableForReuse false 1000
        (some { meta := some freshMetaEx, storage_state := some cookieStorageEx })
      = true := by
  constructor
  · exact (c2_session_usability 1000
      { meta := some staleMetaEx, storage_state := some cookieStorageEx }
      staleMetaEx cookieStorageEx 519 rfl rfl rfl).2.1 (by norm_num [staleMetaEx])
  · exact (c2_session_usability 1000
      { meta := some freshMetaEx, storage_state := some cookieStorageEx }
      freshMetaEx cookieStorageEx 521 rfl rfl rfl).2.2 (by norm_num [freshMetaEx]) rfl

/-- A concrete timestamp parser for the counterexample: only the literal
`EPOCH` parses, to minute 0. -/
def epochParse : JVal → Option Int :=
  fun v =>
    match v with
    | JVal.jstr s => if s = "EPOCH" then some 0 else none
    | _ => none

/-- A wrapped session file whose `last_verified` lies at minute 0. -/
def staleWrappedFile : JVal :=
  JVal.jobj
    [("created_at", JVal.jstr "EPOCH"),
     ("last_verified", JVal.jstr "EPOCH"),
     ("storage_state", JVal.jobj [("cookies", JVal.jarr [JVal.jobj [("name", JVal.jstr "sid")]])])]

/-- Counterexample to C2 as stated: at minute 1000000 the stored bundle is
1000000 minutes old — vastly beyond any max age, e.g. the shipped default of
480 — yet `DataExtractor.init_browser` still treats it as usable for reuse at
context creation, because its decision never consults the age. -/
theorem c2_extractor_ignores_age_counterexample :
    initBrowserReusesSession false
        (parseSessionFile "NOW" (FileRead.ok staleWrappedFile) FileRead.missing).storage
      = true
    ∧ sessionAgeMinutes epochParse 1000000
        (parseSessionFile "NOW" (FileRead.ok staleWrappedFile) FileRead.missing).meta
      = some 1000000
    ∧ DEFAULT_MAX_AGE_MINUTES < 1000000 := by
  refine ⟨rfl, ?_, by decide⟩
  show sessionAgeMinutes epochParse 1000000
      (some { created_at := some (JVal.jstr "EPOCH")
            , last_verified := some (JVal.jstr "EPOCH"), username := none })
    = some 1000000
  simp [sessionAgeMinutes, epochParse, JVal.truthy]

/-- Claim C3 (amended): every persist writes a bundle whose `created_at` is
taken from the previously loaded bundle when one was loaded with a truthy
(non-empty) metadata dict (falling back to JSON null if that dict lacked the
key) and is set to now otherwise — in particular after a first login with no
prior session file, and also when the loaded metadata dict is empty,
`created_at` and `last_verified` are the same timestamp — whose
`last_verified` is now, and whose `tokens` entry is exactly the tokens
captured during the current run (omitted when none were captured);
previously stored tokens are not merged in. The write is a plain whole-file
overwrite. -/
theorem c3_persist_metadata_and_tokens
    (meta : Option LoadedMeta) (now username : String) (storage : JVal)
    (curTokens : List (String × String)) :
    ((saveSessionFile meta now username storage curTokens).get "last_verified"
        = some (JVal.jstr now))
    ∧ (meta = none →
        (saveSessionFile meta now username storage curTokens).get "created_at"
          = some (JVal.jstr now))
    ∧ (∀ m, meta = some m → m.truthy = false →
        (saveSessionFile meta now username storage curTokens).get "created_at"
          = some (JVal.jstr now))
    ∧ (∀ m, meta = some m → m.truthy = true →
        (saveSessionFile meta now username storage curTokens).get "created_at"
          = some (m.created_at.getD JVal.jnull))
    ∧ ((saveSessionFile meta now username storage curTokens).get "storage_state"
        = some storage)
    ∧ ((saveSessionFile meta now username storage curTokens).get "tokens"
        = if curTokens.isEmpty then none
          else some (JVal.jobj (curTokens.map (fun kv => (kv.1, JVal.jstr kv.2))))) := by
  by_cases htok : curTokens.isEmpty
  · refine ⟨?_, ?_, ?_, ?_, ?_, ?_⟩
    · simp [saveSessionFile, wrapStorageState, htok, JVal.get, JVal.get.go]
    · intro hmeta; subst hmeta
      simp [saveSessionFile, wrapStorageState, htok, JVal.get, JVal.get.go]
    · intro m hmeta htr; subst hmeta
      simp [saveSessionFile, wrapStorageState, htok, htr, JVal.get, JVal.get.go]
    · intro m hmeta htr; subst hmeta
      simp [saveSessionFile, wrapStorageState, htok, htr, JVal.get, JVal.get.go]
    · simp [saveSessionFile, wrapStorageState, htok, JVal.get, JVal.get.go]
    · simp [saveSessionFile, wrapStorageState, htok, JVal.get, JVal.get.go]
  · refine ⟨?_, ?_, ?_, ?_, ?_, ?_⟩
    · simp [saveSessionFile, wrapStorageState, htok, JVal.get, JVal.get.go]
    · intro hmeta; subst hmeta
      simp [saveSessionFile, wrapStorageState, htok, JVal.get, JVal.get.go]
    · intro m hmeta htr; subst hmeta
      simp [saveSessionFile, wrapStorageState, htok, htr, JVal.get, JVal.get.go]
    · intro m hmeta htr; subst hmeta
      simp [saveSessionFile, wrapStorageState, htok, htr, JVal.get, JVal.get.go]
    · simp [saveSessionFile, wrapStorageState, htok, JVal.get, JVal.get.go]
    · simp [saveSessionFile, wrapStorageState, htok, JVal.get, JVal.get.go]

/-- Witness for C3: a first login (no previously loaded metadata) with one
captured token writes `created_at = last_verified = now` and exactly that
token; a load that yielded an empty (falsy) metadata dict — e.g. a wrapped
file carrying none of the three tracked keys — also persists
`created_at = now`. -/
theorem c3_persist_metadata_and_tokens_witness :
    ((saveSessionFile none "2026-10-12T00:00:00+00:00" "u" (JVal.jobj [])
        [("jwt_token", "abc")]).get "created_at"
      = some (JVal.jstr "2026-10-12T00:00:00+00:00"))
    ∧ ((saveSessionFile none "2026-10-12T00:00:00+00:00" "u" (JVal.jobj [])
        [("jwt_token", "abc")]).get "last_verified"
      = some (JVal.jstr "2026-10-12T00:00:00+00:00"))
    ∧ ((saveSessionFile
          (some { created_at := none, last_verified := none, username := none })
          "2026-10-12T00:00:00+00:00" "u" (JVal.jobj []) []).get "created_at"
      = some (JVal.jstr "2026-10-12T00:00:00+00:00")) :=
  ⟨(c3_persist_metadata_and_tokens none "2026-10-12T00:00:00+00:00" "u"
      (JVal.jobj []) [("jwt_token", "abc")]).2.1 rfl,
   (c3_persist_metadata_and_tokens none "2026-10-12T00:00:00+00:00" "u"
      (JVal.jobj []) [("jwt_token", "abc")]).1,
   (c3_persist_metadata_and_tokens
      (some { created_at := none, last_verified := none, username := none })
      "2026-10-12T00:00:00+00:00" "u" (JVal.jobj []) []).2.2.1
     { created_at := none, last_verified := none, username := none } rfl rfl⟩

/-- A previously stored session file carrying a tokens mapping. -/
def fileWithTokensEx : JVal :=
  JVal.jobj
    [("created_at", JVal.jstr "T0"),
     ("last_verified", JVal.jstr "T0"),
     ("storage_state", JVal.jobj [("cookies", JVal.jarr [JVal.jnull])]),
     ("tokens", JVal.jobj [("auth_old", JVal.jstr "0123456789abcdef")])]

/-- Counterexample to C3 as stated: the loaded session file stores the token
`auth_old`, the current run captures no tokens, and the next persist writes a
bundle with no `tokens` entry at all — the previously stored tokens are
dropped, not merged. -/
theorem c3_previous_tokens_dropped_counterexample :
    (parseSessionFile "NOW" (FileRead.ok fileWithTokensEx) FileRead.missing).tokens
      = some (JVal.jobj [("auth_old", JVal.jstr "0123456789abcdef")])
    ∧ (saveSessionFile
        (parseSessionFile "NOW" (FileRead.ok fileWithTokensEx) FileRead.missing).meta
        "NOW2" "u" (JVal.jobj []) []).get "tokens"
      = none := by
  constructor
  · rfl
  · rfl

theorem jget_none_of_not_obj (d : JVal) (k : String) (h : d.isObj = false) :
    d.get k = none := by
  cases d <;> first | rfl | simp [JVal.isObj] at h

theorem jget_none_of_hasKey_false (d : JVal) (k : String)
    (h : d.hasKey k = false) : d.get k = none := by
  cases hg : d.get k with
  | none => rfl
  | some v =>
    rw [JVal.hasKey, hg] at h
    exact absurd h (by simp)

/-- Claim C4 (amended): `_parse_session_file` returns `None` exactly when the
session file is malformed JSON, or it is missing/undersized and the raw
fallback file is unusable, or it parses to a value that is neither a
legacy-shaped dict (a `cookies`/`origins` key present) nor a dict carrying a
non-null `storage_state` entry. The `version` field is never inspected, an
empty-but-present `storage_state` object is returned rather than rejected,
and a legacy raw file is accepted with metadata synthesized from the load
time. -/
theorem c4_load_none_characterization (now : String) (mainF rawF : FileRead) :
    ((parseSessionFile now mainF rawF).storage = none ↔
      (mainF = FileRead.malformed
       ∨ ((mainF = FileRead.missing ∨ mainF = FileRead.tooSmall)
            ∧ rawFallback rawF = none)
       ∨ (∃ d, mainF = FileRead.ok d ∧ legacyShape d = false
            ∧ (d.get "storage_state" = none
               ∨ d.get "storage_state" = some JVal.jnull))))
    ∧ (∀ d, mainF = FileRead.ok d → legacyShape d = true →
        parseSessionFile now mainF rawF =
          { storage := some d
          , meta := some { created_at := some (JVal.jstr now)
                         , last_verified := some (JVal.jstr now)
                         , username := none }
          , tokens := tokensField d }) := by
  constructor
  · cases mainF with
    | missing => simp [parseSessionFile]
    | tooSmall => simp [parseSessionFile]
    | malformed => simp [parseSessionFile]
    | ok d =>
      by_cases hleg : legacyShape d = true
      · simp only [parseSessionFile, hleg, if_true]
        constructor
        · intro h; exact absurd h (by simp)
        · intro h
          exfalso
          rcases h with h | ⟨h1, _⟩ | ⟨d2, hd2, hls, _⟩
          · exact absurd h (by simp)
          · rcases h1 with h1 | h1 <;> exact absurd h1 (by simp)
          · cases hd2
            rw [hleg] at hls
            exact absurd hls (by simp)
      · have hlegf : legacyShape d = false := by
          cases hx : legacyShape d with
          | true => exact absurd hx hleg
          | false => rfl
        by_cases hwrap : (d.isObj && d.hasKey "storage_state") = true
        · simp only [parseSessionFile, hlegf, Bool.false_eq_true, if_false, hwrap,
            if_true]
          cases hv : d.get "storage_state" with
          | none =>
            exfalso
            rw [JVal.hasKey, hv] at hwrap
            simp at hwrap
          | some v =>
            cases v with
            | jnull =>
              simp only [hv]
              constructor
              · intro _; exact Or.inr (Or.inr ⟨d, rfl, hlegf, Or.inr hv⟩)
              · intro _; trivial
            | jbool b =>
              simp only [hv]
              constructor
              · intro h; exact absurd h (by simp)
              · intro h
                exfalso
                rcases h with h | ⟨h1, _⟩ | ⟨d2, hd2, _, hor⟩
                · exact absurd h (by simp)
                · rcases h1 with h1 | h1 <;> exact absurd h1 (by simp)
                · cases hd2
                  rw [hv] at hor
                  rcases hor with h2 | h2 <;> exact absurd h2 (by simp)
            | jnum n =>
              simp only [hv]
              constructor
              · intro h; exact absurd h (by simp)
              · intro h
                exfalso
                rcases h with h | ⟨h1, _⟩ | ⟨d2, hd2, _, hor⟩
                · exact absurd h (by simp)
                · rcases h1 with h1 | h1 <;> exact absurd h1 (by simp)
                · cases hd2
                  rw [hv] at hor
                  rcases hor with h2 | h2 <;> exact absurd h2 (by simp)
            | jstr s =>
              simp only [hv]
              constructor
              · intro h; exact absurd h (by simp)
              · intro h
                exfalso
                rcases h with h | ⟨h1, _⟩ | ⟨d2, hd2, _, hor⟩
                · exact absurd h (by simp)
                · rcases h1 with h1 | h1 <;> exact absurd h1 (by simp)
                · cases hd2
                  rw [hv] at hor
                  rcases hor with h2 | h2 <;> exact absurd h2 (by simp)
            | jarr xs =>
              simp only [hv]
              constructor
              · intro h; exact absurd h (by simp)
              · intro h
                exfalso
                rcases h with h | ⟨h1, _⟩ | ⟨d2, hd2, _, hor⟩
                · exact absurd h (by simp)
                · rcases h1 with h1 | h1 <;> exact absurd h1 (by simp)
                · cases hd2
                  rw [hv] at hor
                  rcases hor with h2 | h2 <;> exact absurd h2 (by simp)
            | jobj fs =>
              simp only [hv]
              constructor
              · intro h; exact absurd h (by simp)
              · intro h
                exfalso
                rcases h with h | ⟨h1, _⟩ | ⟨d2, hd2, _, hor⟩
                · exact absurd h (by simp)
                · rcases h1 with h1 | h1 <;> exact absurd h1 (by simp)
                · cases hd2
                  rw [hv] at hor
                  rcases hor with h2 | h2 <;> exact absurd h2 (by simp)
        · have hwrapf : (d.isObj && d.hasKey "storage_state") = false := by
            cases hx : (d.isObj && d.hasKey "storage_state") with
            | true => exact absurd hx hwrap
            | false => rfl
          simp only [parseSessionFile, hlegf, Bool.false_eq_true, if_false, hwrapf]
          constructor
          · intro _
            refine Or.inr (Or.inr ⟨d, rfl, hlegf, Or.inl ?_⟩)
            cases hobj : d.isObj with
            | false => exact jget_none_of_not_obj d _ hobj
            | true =>
              have hk : d.hasKey "storage_state" = false := by
                rw [hobj] at hwrapf
                simpa using hwrapf
              exact jget_none_of_hasKey_false d _ hk
          · intro _; trivial
  · intro d hd hleg2
    subst hd
    simp [parseSessionFile, hleg2]

/-- Witness for C4: a malformed session file loads as `None`. -/
theorem c4_load_none_characterization_witness :
    (parseSessionFile "T" FileRead.malformed FileRead.missing).storage = none :=
  (c4_load_none_characterization "T" FileRead.malformed FileRead.missing).1.mpr
    (Or.inl rfl)

/-- A wrapped session file carrying an unknown version tag. -/
def unknownVersionFileEx : JVal :=
  JVal.jobj
    [("version", JVal.jnum 999),
     ("storage_state", JVal.jobj [("cookies", JVal.jarr [JVal.jobj []])])]

/-- Counterexample to C4 as stated: a session file whose `version` is the
unknown tag 999 is still loaded (its storage state is returned), because
`_parse_session_file` never inspects the version field — the claim requires
`None` on an unknown version. -/
theorem c4_unknown_version_accepted_counterexample :
    (parseSessionFile "T" (FileRead.ok unknownVersionFileEx) FileRead.missing).storage
      = some (JVal.jobj [("cookies", JVal.jarr [JVal.jobj []])]) := by
  rfl

/-- The single-quote character (written by code point to keep it out of the
surrounding text). -/
def squoteChar : Char := Char.ofNat 39

/-- `s.replace("'", "")`: every single-quote character removed. -/
def stripQuotes (s : String) : String :=
  String.mk (s.toList.filter (fun c => c != squoteChar))

/-- One `{name, value}` entry of an origin's localStorage list (entries
without a `name` key are skipped by the source; an entry without a `value`
key would raise a KeyError there, so both fields are total here). -/
structure LSItem where
  name : String
  value : String

/-- One entry of `storage_state.origins`. -/
structure OriginEntry where
  origin : String
  localStorage : List LSItem

/-- The `kv_pairs` dict of `_prime_local_storage`. -/
def lsKvPairs (items : List LSItem) : List (String × String) :=
  dictExtend [] (items.map (fun it => (it.name, it.value)))

/-- The `localStorage.setItem` pairs injected by
`SessionManager._prime_local_storage` for one origin entry: each stored name
and value with single quotes removed; degenerate entries (falsy origin, no
items, empty pair dict) inject nothing. -/
def primeOriginInjections (e : OriginEntry) : List (String × String) :=
  if (e.origin == "") || e.localStorage.isEmpty then []
  else if (lsKvPairs e.localStorage).isEmpty then []
  else (lsKvPairs e.localStorage).map (fun kv => (stripQuotes kv.1, stripQuotes kv.2))

/-- The `window[k] = v` / `localStorage.setItem` pairs injected by
`DataExtractor.init_browser` for the previously stored tokens (all harvested
tokens are strings; a non-string would be JSON-serialized first). -/
def tokenInjections (loadedTokens : List (String × String)) :
    List (String × String) :=
  loadedTokens.map (fun kv => (stripQuotes kv.1, stripQuotes kv.2))

theorem filter_length_lt_of_mem_not {α : Type} (l : List α) (c : α)
    (p : α → Bool) (hc : c ∈ l) (hp : p c = false) :
    (l.filter p).length < l.length := by
  induction l with
  | nil => cases hc
  | cons x rest ih =>
    rcases List.mem_cons.mp hc with h | h
    · subst h
      rw [List.filter_cons, hp]
      simp only [Bool.false_eq_true, if_false, List.length_cons]
      exact Nat.lt_succ_of_le (List.length_filter_le p rest)
    · rw [List.filter_cons]
      cases p x with
      | false =>
        simp only [Bool.false_eq_true, if_false, List.length_cons]
        exact Nat.lt_succ_of_lt (ih h)
      | true =>
        simp only [if_true, List.length_cons]
        exact Nat.succ_lt_succ (ih h)

/-- Claim C10: every localStorage entry and every stored token re-injected at
browser-context creation is injected with its name and value stripped of
every single-quote character; a value containing a single quote is therefore
not reproduced exactly, while the persisted session file itself keeps the
original value. -/
theorem c10_injection_strips_quotes
    (e : OriginEntry) (lt : List (String × String)) (v : String)
    (meta : Option LoadedMeta) (now username : String) (storage : JVal)
    (curTokens : List (String × String)) :
    (∀ p ∈ primeOriginInjections e, ∃ q ∈ lsKvPairs e.localStorage,
        p = (stripQuotes q.1, stripQuotes q.2))
    ∧ (e.origin ≠ "" → ∀ q ∈ lsKvPairs e.localStorage,
        (stripQuotes q.1, stripQuotes q.2) ∈ primeOriginInjections e)
    ∧ (∀ kv ∈ lt, (stripQuotes kv.1, stripQuotes kv.2) ∈ tokenInjections lt)
    ∧ (squoteChar ∈ v.toList → stripQuotes v ≠ v)
    ∧ (¬ curTokens.isEmpty →
        (saveSessionFile meta now username storage curTokens).get "tokens"
          = some (JVal.jobj (curTokens.map (fun kv => (kv.1, JVal.jstr kv.2))))) := by
  refine ⟨?_, ?_, ?_, ?_, ?_⟩
  · intro p hp
    rw [primeOriginInjections] at hp
    split at hp
    · cases hp
    · split at hp
      · cases hp
      · rcases List.mem_map.mp hp with ⟨q, hq, hpq⟩
        exact ⟨q, hq, hpq.symm⟩
  · intro horig q hq
    have hitems : ¬ e.localStorage.isEmpty := by
      intro hempty
      rw [List.isEmpty_iff] at hempty
      rw [lsKvPairs, hempty] at hq
      cases hq
    have hpairs : ¬ (lsKvPairs e.localStorage).isEmpty := by
      intro hempty
      rw [List.isEmpty_iff] at hempty
      rw [hempty] at hq
      cases hq
    rw [primeOriginInjections]
    rw [if_neg (by simp [horig, hitems]), if_neg (by simpa using hpairs)]
    exact List.mem_map_of_mem _ hq
  · intro kv hkv
    exact List.mem_map_of_mem _ hkv
  · intro hmem heq
    have hdata : (v.toList.filter (fun c => c != squoteChar)) = v.toList := by
      have := congrArg String.toList heq
      simpa [stripQuotes] using this
    have hlt : (v.toList.filter (fun c => c != squoteChar)).length < v.toList.length :=
      filter_length_lt_of_mem_not v.toList squoteChar _ hmem (by simp)
    rw [hdata] at hlt
    exact Nat.lt_irrefl _ hlt
  · intro htok
    have hfalse : curTokens.isEmpty = false := by
      cases hx : curTokens.isEmpty with
      | true => exact absurd hx htok
      | false => rfl
    simp [saveSessionFile, wrapStorageState, hfalse, JVal.get, JVal.get.go]

/-- Witness for C10: a stored value holding a single quote is injected
without it, while the persisted file keeps it. -/
theorem c10_injection_strips_quotes_witness :
    (stripQuotes (String.mk [Char.ofNat 97, squoteChar, Char.ofNat 98])
        ≠ String.mk [Char.ofNat 97, squoteChar, Char.ofNat 98])
    ∧ ((saveSessionFile none "T" "u" (JVal.jobj [])
          [("k", String.mk [Char.ofNat 97, squoteChar, Char.ofNat 98])]).get "tokens"
        = some (JVal.jobj
            [("k", JVal.jstr (String.mk [Char.ofNat 97, squoteChar, Char.ofNat 98]))])) :=
  ⟨(c10_injection_strips_quotes
      { origin := "", localStorage := [] } []
      (String.mk [Char.ofNat 97, squoteChar, Char.ofNat 98])
      none "T" "u" (JVal.jobj []) []).2.2.2.1 (by decide),
   (c10_injection_strips_quotes
      { origin := "", localStorage := [] } []
      (String.mk [Char.ofNat 97, squoteChar, Char.ofNat 98])
      none "T" "u" (JVal.jobj [])
      [("k", String.mk [Char.ofNat 97, squoteChar, Char.ofNat 98])]).2.2.2.2
     (by decide)⟩

/-- An abstract live page for the validators: its current URL plus the
outcome of each `is_visible` probe — `some b` for a normal answer, `none`
when the probe raises (the code swallows the exception and moves on). -/
structure VPage where
  url : String
  vis : String → Option Bool

/-- The logged-in indicators probed by `DataExtractor._is_session_valid`:
the username indicator joins the list only when the username is non-empty
(`filter(None, ...)`). -/
def dashboardIndicators (username : String) : List String :=
  ["text=Submit Script", "text=Submit Solution", "text=Product Dashboard"]
    ++ (if username == "" then [] else ["text=" ++ username])

/-- `DataExtractor._is_session_valid`: true as soon as one indicator probe
answers visibly true; probe errors count as not visible; total by
construction (the outer try/except can only return a Bool). -/
def isSessionValid (username : String) (vis : String → Option Bool) : Bool :=
  (dashboardIndicators username).any (fun sel => (vis sel).getD false)

/-- The indicators of `SessionManager._validate_logged_in` (no dashboard
entry, and the email indicator is unconditional). -/
def smIndicators (email : String) : List String :=
  ["text=Submit Script", "text=Submit Solution", "text=" ++ email]

/-- `SessionManager._validate_logged_in`: when the page URL does not start
with the manager's base URL it first navigates there (a failed `goto`, i.e.
`goto = none`, leaves the page as is), then probes the indicators. Returns
the verdict and the page the probes ran on. -/
def validateLoggedIn (baseUrl email : String) (goto : String → Option VPage)
    (p : VPage) : Bool × VPage :=
  let p1 := if strStarts p.url baseUrl then p else (goto baseUrl).getD p
  ((smIndicators email).any (fun sel => (p1.vis sel).getD false), p1)

/-- Claim C8 (amended): both validators are total Boolean functions — probe
errors and all-invisible pages yield `false`, never an exception — and
`_is_session_valid` returns true exactly when some indicator probe answers
visibly true. `_is_session_valid` takes no page transition at all, and
`_validate_logged_in` leaves the page untouched and is idempotent whenever
the page is already at the base URL; but when the page is elsewhere it first
navigates, which mutates the page state (see the counterexample). -/
theorem c8_validator_total_and_idempotent
    (username baseUrl email : String) (vis : String → Option Bool)
    (goto : String → Option VPage) (p : VPage) :
    (isSessionValid username vis = true ↔
      ∃ sel ∈ dashboardIndicators username, vis sel = some true)
    ∧ (strStarts p.url baseUrl = true →
        (validateLoggedIn baseUrl email goto p).2 = p)
    ∧ (strStarts p.url baseUrl = true →
        validateLoggedIn baseUrl email goto ((validateLoggedIn baseUrl email goto p).2)
          = validateLoggedIn baseUrl email goto p) := by
  have hpage : ∀ hs : strStarts p.url baseUrl = true,
      (validateLoggedIn baseUrl email goto p).2 = p := by
    intro hs
    simp [validateLoggedIn, hs]
  refine ⟨?_, hpage, ?_⟩
  · rw [isSessionValid, List.any_eq_true]
    constructor
    · rintro ⟨sel, hmem, hp⟩
      refine ⟨sel, hmem, ?_⟩
      cases hv : vis sel with
      | none => rw [hv] at hp; simp at hp
      | some b =>
        rw [hv] at hp
        cases b with
        | true => rfl
        | false => simp at hp
    · rintro ⟨sel, hmem, hp⟩
      exact ⟨sel, hmem, by rw [hp]; rfl⟩
  · intro hs
    rw [hpage hs]

/-- Witness for C8: with the dashboard indicator visible, the validator
answers true, and re-validating an on-site page changes nothing. -/
theorem c8_validator_witness :
    isSessionValid "u"
        (fun sel => if sel == "text=Product Dashboard" then some true else some false)
      = true
    ∧ (validateLoggedIn "https://hiring.example/" "e"
        (fun _ => none)
        { url := "https://hiring.example/dashboard", vis := fun _ => some false }).2
      = { url := "https://hiring.example/dashboard", vis := fun _ => some false } :=
  ⟨(c8_validator_total_and_idempotent "u" "x" "e"
      (fun sel => if sel == "text=Product Dashboard" then some true else some false)
      (fun _ => none)
      { url := "", vis := fun _ => none }).1.mpr
      ⟨"text=Product Dashboard", by simp [dashboardIndicators], rfl⟩,
   (c8_validator_total_and_idempotent "u" "https://hiring.example/" "e"
      (fun _ => some false)
      (fun _ => none)
      { url := "https://hiring.example/dashboard", vis := fun _ => some false }).2.1
      (by decide)⟩

/-- The navigation environment of the counterexample: `goto u` lands on `u`. -/
def gotoEx : String → Option VPage :=
  fun u => some { url := u, vis := fun _ => some false }

/-- A page parked away from the application. -/
def pageElsewhereEx : VPage :=
  { url := "about:blank", vis := fun _ => some false }

/-- Counterexample to C8 as stated: calling `_validate_logged_in` on a page
that is not at the base URL navigates it there — the page URL after the call
differs from the one before, so the validator does mutate page state. -/
theorem c8_validator_navigates_counterexample :
    ((validateLoggedIn "https://hiring.example/" "e" gotoEx pageElsewhereEx).2).url
      = "https://hiring.example/"
    ∧ pageElsewhereEx.url = "about:blank"
    ∧ ((validateLoggedIn "https://hiring.example/" "e" gotoEx pageElsewhereEx).2).url
        ≠ pageElsewhereEx.url := by
  refine ⟨rfl, rfl, by decide⟩

/-- One candidate pagination "next" control as the loop observes it:
whether `is_enabled`/`is_visible` both succeed within their timeouts, and the
values of its `disabled` and `aria-disabled` attributes (`none` = absent). -/
structure Ctl where
  enabledVisible : Bool
  disabledAttr : Option String
  ariaDisabled : Option String

/-- `aria and aria.lower() == 'true'` (a falsy empty string fails). -/
def ariaIsTrue : Option String → Bool
  | some a => (a != "") && (strLower a == "true")
  | none => false

/-- A next control is clicked only if it is enabled and visible, carries no
`disabled` attribute, and is not `aria-disabled=true` (lines 1080-1085). -/
def ctlEligible (c : Ctl) : Bool :=
  c.enabledVisible && !c.disabledAttr.isSome && !ariaIsTrue c.ariaDisabled

/-- Index of the first eligible control in a candidate list. -/
def firstEligibleIdx : List Ctl → Option Nat
  | [] => none
  | c :: rest =>
    if ctlEligible c then some 0 else (firstEligibleIdx rest).map (· + 1)

/-- The first selector the next-strategy loop actually clicks. -/
def firstEligible (cs : List Ctl) : Option Nat :=
  firstEligibleIdx cs

/-- The live page as the extraction engine observes and drives it: `σ` is the
abstract page state, and each field models one Playwright interaction of
`extract_table_data`. -/
structure PageEnv (σ : Type) where
  indicator : σ → Option (Nat × Nat)
  curRows : σ → List Row
  nextCtls : σ → List Ctl
  clickNext : σ → Nat → σ
  loadMoreVisible : σ → Bool
  clickLoadMore : σ → σ
  scrollPage : σ → σ
  tableRows : σ → List Row
  groupRows : σ → List Row
  pageTexts : σ → List String

/-- The loop state of `extract_table_data`: the deduplicating collector,
`total_expected`, `pagination_attempts`, and the current page. -/
structure EngineState (σ : Type) where
  coll : Collector
  totalExpected : Option Nat
  attempts : Nat
  pg : σ

/-- `max_pages = 200`, the safety cap on pagination attempts. -/
def maxPages : Nat := 200

/-- The count-indicator refresh at the top of each loop iteration (lines
1045-1062): record the total if not yet known; if the page already shows all
rows, re-extract once and stop. -/
def stepIndicator {σ : Type} (env : PageEnv σ) (st : EngineState σ) :
    EngineState σ × Bool :=
  match env.indicator st.pg with
  | some (shown, total) =>
    let te := some (st.totalExpected.getD total)
    if total ≤ shown then
      ({ st with coll := addRows st.coll (env.curRows st.pg), totalExpected := te },
       true)
    else ({ st with totalExpected := te }, false)
  | none => (st, false)

/-- The pagination-next strategy (lines 1070-1102): click the first eligible
control, wait, re-extract, dedup; progress means at least one new row. -/
def tryNext {σ : Type} (env : PageEnv σ) (st : EngineState σ) :
    EngineState σ × Bool :=
  match firstEligible (env.nextCtls st.pg) with
  | some i =>
    let pg2 := env.clickNext st.pg i
    let coll2 := addRows st.coll (env.curRows pg2)
    ({ st with coll := coll2, pg := pg2 },
     decide (st.coll.products.length < coll2.products.length))
  | none => (st, false)

/-- The load-more strategy (lines 1106-1133): if a load-more control is
visible it is clicked and rows re-extracted; the iteration then continues
regardless of whether anything new was added (`load_clicked = True`). -/
def tryLoadMore {σ : Type} (env : PageEnv σ) (st : EngineState σ) :
    Option (EngineState σ) :=
  if env.loadMoreVisible st.pg then
    let pg2 := env.clickLoadMore st.pg
    some { st with coll := addRows st.coll (env.curRows pg2), pg := pg2 }
  else none

/-- The infinite-scroll fallback (lines 1135-1154): scroll, re-extract,
dedup; progress means the product list grew. -/
def tryScroll {σ : Type} (env : PageEnv σ) (st : EngineState σ) :
    EngineState σ × Bool :=
  let pg2 := env.scrollPage st.pg
  let coll2 := addRows st.coll (env.curRows pg2)
  ({ st with coll := coll2, pg := pg2 },
   decide (st.coll.products.length < coll2.products.length))

/-- After a scroll that grew the list: stop early when a truthy
`total_expected` has been reached, else run another iteration; a scroll with
no growth falls through to the final `break`. -/
def afterScroll {σ : Type} (st : EngineState σ) (grew : Bool) :
    EngineState σ ⊕ EngineState σ :=
  if grew then
    match st.totalExpected with
    | some t =>
      if t ≠ 0 ∧ t ≤ st.coll.products.length then Sum.inl st else Sum.inr st
    | none => Sum.inr st
  else Sum.inl st

/-- One pass over the three advance strategies in their strict priority order
(next, then load-more, then scroll), after bumping and checking the attempt
counter. `inl` = the loop breaks with this state; `inr` = another iteration. -/
def advance {σ : Type} (env : PageEnv σ) (st1 : EngineState σ) :
    EngineState σ ⊕ EngineState σ :=
  let st2 : EngineState σ := { st1 with attempts := st1.attempts + 1 }
  if maxPages < st2.attempts then Sum.inl st2
  else
    let next := tryNext env st2
    if next.2 then Sum.inr next.1
    else
      match tryLoadMore env next.1 with
      | some st4 => Sum.inr st4
      | none =>
        let scr := tryScroll env next.1
        afterScroll scr.1 scr.2

/-- One full iteration of the `while True:` loop, in source order: indicator
refresh (may break), total-reached check (may break), then the advance
strategies. -/
def iterStep {σ : Type} (env : PageEnv σ) (st : EngineState σ) :
    EngineState σ ⊕ EngineState σ :=
  let si := stepIndicator env st
  if si.2 then Sum.inl si.1
  else
    match si.1.totalExpected with
    | some t =>
      if t ≤ si.1.coll.products.length then Sum.inl si.1 else advance env si.1
    | none => advance env si.1

/-- The fuelled unfolding of the `while True:` loop. The attempt-counter
ceiling makes the loop's real iteration count at most `maxPages + 1`, so any
fuel beyond `maxPages + 2` is equivalent (proved below). -/
def engineLoop {σ : Type} (env : PageEnv σ) : Nat → EngineState σ → EngineState σ
  | 0, st => st
  | Nat.succ fuel, st =>
    match iterStep env st with
    | Sum.inl st2 => st2
    | Sum.inr st2 => engineLoop env fuel st2

/-- The placeholder row synthesized when neither a table nor a repeating
group yields rows (lines 950-967), enriched with up to the first five
heading/paragraph texts. -/
def placeholderRow (texts : List String) : Row :=
  [("Name", "Sample Product"),
   ("Description", "This is a placeholder since no products were found"),
   ("Note", "This data was generated because no product table was found")]
  ++ ((texts.take 5).enum.filterMap
        (fun it =>
          if it.2 = "" then none
          else some ("Page_Text_" ++ toString (it.1 + 1), it.2)))

/-- The initial in-page structural extraction (lines 824-971): the largest
table's rows if any, else the repeating-group rows if any, else the single
placeholder row. -/
def jsFullExtract {σ : Type} (env : PageEnv σ) (s : σ) : List Row :=
  if env.tableRows s ≠ [] then env.tableRows s
  else if env.groupRows s ≠ [] then env.groupRows s
  else [placeholderRow (env.pageTexts s)]

/-- The two clearly-marked synthetic rows substituted when the direct
extraction call raises (lines 983-1001); note the source replaces
`all_products` without touching `collected_keys`. -/
def syntheticErrorRows : List Row :=
  [[("Name", "Example Product 1"),
    ("Description", "This is a placeholder product"),
    ("Category", "Test"),
    ("Price", "$99.99"),
    ("SKU", "TEST-001"),
    ("_note", "This is synthetic data because actual product data could not be extracted")],
   [("Name", "Example Product 2"),
    ("Description", "Another placeholder product"),
    ("Category", "Test"),
    ("Price", "$199.99"),
    ("SKU", "TEST-002"),
    ("_note", "This is synthetic data because actual product data could not be extracted")]]

/-- The single synthetic row returned when the whole extraction body raises
(lines 1171-1176). -/
def errorRow (emsg : String) : Row :=
  [("Name", "Error Product"),
   ("Description", "Failed to extract product data"),
   ("Error", emsg),
   ("_note", "This is synthetic data because an error occurred during extraction")]

/-- The final defensive trim (lines 1161-1163):
`if total_expected and len(all_products) > total_expected:` — Python
truthiness, so a recorded total of 0 never trims. -/
def finalTrim (te : Option Nat) (l : List Row) : List Row :=
  match te with
  | some t => if t ≠ 0 ∧ t < l.length then l.take t else l
  | none => l

/-- `DataExtractor.extract_table_data` end to end: initial extraction (or the
synthetic rows when it raises), initial indicator parse, the pagination loop,
and the final defensive trim. `outerFails` models the outer try/except. -/
def extractTableData {σ : Type} (env : PageEnv σ) (s0 : σ)
    (directExtractFails : Bool) (outerFails : Bool) : List Row :=
  if outerFails then [errorRow "error"]
  else
    let init : Collector :=
      if directExtractFails then { products := syntheticErrorRows, keys := [] }
      else addRows { products := [], keys := [] } (jsFullExtract env s0)
    let te0 : Option Nat := (env.indicator s0).map (fun p => p.2)
    let fin := engineLoop env (maxPages + 2)
      { coll := init, totalExpected := te0, attempts := 0, pg := s0 }
    finalTrim fin.totalExpected fin.coll.products

theorem addRow_length_le (c : Collector) (r : Row) :
    c.products.length ≤ (addRow c r).products.length := by
  by_cases h : rowKey r ∈ c.keys
  · simp [addRow, h]
  · simp [addRow, h]

theorem addRows_length_le (rs : List Row) :
    ∀ c : Collector, c.products.length ≤ (addRows c rs).products.length := by
  induction rs with
  | nil => intro c; exact Nat.le_refl _
  | cons r rest ih =>
    intro c
    have h1 := addRow_length_le c r
    have h2 := ih (addRow c r)
    calc c.products.length ≤ (addRow c r).products.length := h1
      _ ≤ (addRows (addRow c r) rest).products.length := h2
      _ = (addRows c (r :: rest)).products.length := rfl

theorem addRows_from_empty_pos (rs : List Row) (h : rs ≠ []) :
    0 < (addRows { products := [], keys := [] } rs).products.length := by
  cases rs with
  | nil => exact absurd rfl h
  | cons r rest =>
    have h1 : (addRow { products := [], keys := [] } r).products.length = 1 := by
      simp [addRow]
    have h2 := addRows_length_le rest (addRow { products := [], keys := [] } r)
    show 0 < (addRows (addRow { products := [], keys := [] } r) rest).products.length
    omega

theorem stepIndicator_props {σ : Type} (env : PageEnv σ) (st : EngineState σ) :
    (stepIndicator env st).1.attempts = st.attempts
    ∧ (∀ t, st.totalExpected = some t →
        (stepIndicator env st).1.totalExpected = some t)
    ∧ st.coll.products.length ≤ (stepIndicator env st).1.coll.products.length := by
  cases hv : env.indicator st.pg with
  | none =>
    have he : stepIndicator env st = (st, false) := by
      unfold stepIndicator; rw [hv]
    rw [he]
    exact ⟨rfl, fun t ht => ht, Nat.le_refl _⟩
  | some p =>
    obtain ⟨shown, total⟩ := p
    by_cases hc : total ≤ shown
    · have he : stepIndicator env st =
          ({ st with coll := addRows st.coll (env.curRows st.pg),
                     totalExpected := some (st.totalExpected.getD total) }, true) := by
        unfold stepIndicator
        rw [hv]
        dsimp only
        rw [if_pos hc]
      rw [he]
      refine ⟨rfl, ?_, addRows_length_le _ _⟩
      intro t ht
      simp [ht]
    · have he : stepIndicator env st =
          ({ st with totalExpected := some (st.totalExpected.getD total) }, false) := by
        unfold stepIndicator
        rw [hv]
        dsimp only
        rw [if_neg hc]
      rw [he]
      refine ⟨rfl, ?_, Nat.le_refl _⟩
      intro t ht
      simp [ht]

theorem tryNext_props {σ : Type} (env : PageEnv σ) (st : EngineState σ) :
    (tryNext env st).1.attempts = st.attempts
    ∧ (tryNext env st).1.totalExpected = st.totalExpected
    ∧ st.coll.products.length ≤ (tryNext env st).1.coll.products.length
    ∧ ((tryNext env st).2 = true →
        st.coll.products.length < (tryNext env st).1.coll.products.length) := by
  cases hf : firstEligible (env.nextCtls st.pg) with
  | none =>
    have he : tryNext env st = (st, false) := by
      unfold tryNext; rw [hf]
    rw [he]
    exact ⟨rfl, rfl, Nat.le_refl _, fun h => absurd h (by simp)⟩
  | some i =>
    have he : tryNext env st =
        ({ st with coll := addRows st.coll (env.curRows (env.clickNext st.pg i)),
                   pg := env.clickNext st.pg i },
         decide (st.coll.products.length <
           (addRows st.coll (env.curRows (env.clickNext st.pg i))).products.length)) := by
      unfold tryNext; rw [hf]
    rw [he]
    exact ⟨rfl, rfl, addRows_length_le _ _, fun h => of_decide_eq_true h⟩

theorem tryLoadMore_props {σ : Type} (env : PageEnv σ) (st s4 : EngineState σ)
    (h : tryLoadMore env st = some s4) :
    s4.attempts = st.attempts
    ∧ s4.totalExpected = st.totalExpected
    ∧ st.coll.products.length ≤ s4.coll.products.length
    ∧ env.loadMoreVisible st.pg = true
    ∧ s4.pg = env.clickLoadMore st.pg := by
  unfold tryLoadMore at h
  split at h
  case isTrue hvis =>
    cases h
    exact ⟨rfl, rfl, addRows_length_le _ _, hvis, rfl⟩
  case isFalse hvis => cases h

theorem tryScroll_props {σ : Type} (env : PageEnv σ) (st : EngineState σ) :
    (tryScroll env st).1.attempts = st.attempts
    ∧ (tryScroll env st).1.totalExpected = st.totalExpected
    ∧ st.coll.products.length ≤ (tryScroll env st).1.coll.products.length
    ∧ ((tryScroll env st).2 = true →
        st.coll.products.length < (tryScroll env st).1.coll.products.length) := by
  exact ⟨rfl, rfl, addRows_length_le _ _, fun h => of_decide_eq_true h⟩

theorem afterScroll_inr_eq {σ : Type} (st s2 : EngineState σ) (g : Bool)
    (h : afterScroll st g = Sum.inr s2) : s2 = st ∧ g = true := by
  unfold afterScroll at h
  split at h
  · split at h
    · split at h
      · cases h
      · cases h
        exact ⟨rfl, by assumption⟩
    · cases h
      exact ⟨rfl, by assumption⟩
  · cases h

theorem afterScroll_inl_eq {σ : Type} (st s2 : EngineState σ) (g : Bool)
    (h : afterScroll st g = Sum.inl s2) : s2 = st := by
  unfold afterScroll at h
  split at h
  · split at h
    · split at h
      · cases h; rfl
      · cases h
    · cases h
  · cases h; rfl

theorem advance_inr_props {σ : Type} (env : PageEnv σ)
    (st1 s2 : EngineState σ) (h : advance env st1 = Sum.inr s2) :
    s2.attempts = st1.attempts + 1
    ∧ st1.attempts + 1 ≤ maxPages
    ∧ s2.totalExpected = st1.totalExpected
    ∧ st1.coll.products.length ≤ s2.coll.products.length
    ∧ (st1.coll.products.length < s2.coll.products.length
       ∨ ∃ s, env.loadMoreVisible s = true ∧ s2.pg = env.clickLoadMore s) := by
  unfold advance at h
  set st2 : EngineState σ := { st1 with attempts := st1.attempts + 1 } with hst2
  by_cases hcap : maxPages < st2.attempts
  · rw [if_pos hcap] at h
    exact Sum.noConfusion h
  · rw [if_neg hcap] at h
    have hcap2 : st1.attempts + 1 ≤ maxPages := by
      have : st2.attempts = st1.attempts + 1 := rfl
      omega
    have hnext := tryNext_props env st2
    by_cases hprog : (tryNext env st2).2 = true
    · rw [if_pos hprog] at h
      cases h
      refine ⟨hnext.1, hcap2, hnext.2.1, hnext.2.2.1, Or.inl ?_⟩
      exact hnext.2.2.2 hprog
    · rw [if_neg hprog] at h
      cases hlm : tryLoadMore env (tryNext env st2).1 with
      | some s4 =>
        rw [hlm] at h
        cases h
        have hp := tryLoadMore_props env (tryNext env st2).1 s2 hlm
        refine ⟨by rw [hp.1, hnext.1], hcap2, by rw [hp.2.1, hnext.2.1], ?_, ?_⟩
        · exact le_trans hnext.2.2.1 hp.2.2.1
        · exact Or.inr ⟨(tryNext env st2).1.pg, hp.2.2.2.1, hp.2.2.2.2⟩
      | none =>
        rw [hlm] at h
        have hscr := tryScroll_props env (tryNext env st2).1
        have hres := afterScroll_inr_eq (tryScroll env (tryNext env st2).1).1 s2
          (tryScroll env (tryNext env st2).1).2 h
        have hgrew := hscr.2.2.2 hres.2
        refine ⟨?_, hcap2, ?_, ?_, Or.inl ?_⟩
        · rw [hres.1, hscr.1, hnext.1]
        · rw [hres.1, hscr.2.1, hnext.2.1]
        · rw [hres.1]; exact le_trans hnext.2.2.1 hscr.2.2.1
        · rw [hres.1]; exact lt_of_le_of_lt hnext.2.2.1 hgrew

theorem advance_inl_props {σ : Type} (env : PageEnv σ)
    (st1 s2 : EngineState σ) (h : advance env st1 = Sum.inl s2) :
    s2.totalExpected = st1.totalExpected
    ∧ st1.coll.products.length ≤ s2.coll.products.length := by
  unfold advance at h
  set st2 : EngineState σ := { st1 with attempts := st1.attempts + 1 } with hst2
  by_cases hcap : maxPages < st2.attempts
  · rw [if_pos hcap] at h
    have hs : st2 = s2 := Sum.inl.inj h
    subst hs
    exact ⟨rfl, Nat.le_refl _⟩
  · rw [if_neg hcap] at h
    have hnext := tryNext_props env st2
    by_cases hprog : (tryNext env st2).2 = true
    · rw [if_pos hprog] at h
      exact Sum.noConfusion h
    · rw [if_neg hprog] at h
      cases hlm : tryLoadMore env (tryNext env st2).1 with
      | some s4 =>
        rw [hlm] at h
        exact Sum.noConfusion h
      | none =>
        rw [hlm] at h
        have hscr := tryScroll_props env (tryNext env st2).1
        have hres := afterScroll_inl_eq (tryScroll env (tryNext env st2).1).1 s2
          (tryScroll env (tryNext env st2).1).2 h
        constructor
        · rw [hres, hscr.2.1, hnext.2.1]
        · rw [hres]; exact le_trans hnext.2.2.1 hscr.2.2.1

theorem iterStep_inr_props {σ : Type} (env : PageEnv σ)
    (st s2 : EngineState σ) (h : iterStep env st = Sum.inr s2) :
    s2.attempts = st.attempts + 1
    ∧ st.attempts + 1 ≤ maxPages
    ∧ (∀ t, st.totalExpected = some t → s2.totalExpected = some t)
    ∧ st.coll.products.length ≤ s2.coll.products.length := by
  unfold iterStep at h
  have hsi := stepIndicator_props env st
  by_cases hbrk : (stepIndicator env st).2 = true
  · rw [if_pos hbrk] at h
    exact Sum.noConfusion h
  · rw [if_neg hbrk] at h
    split at h
    next t hte =>
      split at h
      · exact Sum.noConfusion h
      · have hadv := advance_inr_props env _ _ h
        refine ⟨by rw [hadv.1, hsi.1], by rw [hsi.1] at hadv; exact hadv.2.1, ?_, ?_⟩
        · intro t0 ht0
          have := hsi.2.1 t0 ht0
          rw [hadv.2.2.1, this]
        · exact le_trans hsi.2.2 hadv.2.2.2.1
    next hte =>
      have hadv := advance_inr_props env _ _ h
      refine ⟨by rw [hadv.1, hsi.1], by rw [hsi.1] at hadv; exact hadv.2.1, ?_, ?_⟩
      · intro t0 ht0
        have := hsi.2.1 t0 ht0
        rw [hadv.2.2.1, this]
      · exact le_trans hsi.2.2 hadv.2.2.2.1

theorem iterStep_inl_props {σ : Type} (env : PageEnv σ)
    (st s2 : EngineState σ) (h : iterStep env st = Sum.inl s2) :
    (∀ t, st.totalExpected = some t → s2.totalExpected = some t)
    ∧ st.coll.products.length ≤ s2.coll.products.length := by
  unfold iterStep at h
  have hsi := stepIndicator_props env st
  by_cases hbrk : (stepIndicator env st).2 = true
  · rw [if_pos hbrk] at h
    cases h
    exact ⟨hsi.2.1, hsi.2.2⟩
  · rw [if_neg hbrk] at h
    split at h
    next t hte =>
      split at h
      · have hs : (stepIndicator env st).1 = s2 := Sum.inl.inj h
        subst hs
        exact ⟨hsi.2.1, hsi.2.2⟩
      · have hadv := advance_inl_props env _ _ h
        refine ⟨?_, le_trans hsi.2.2 hadv.2⟩
        intro t0 ht0
        rw [hadv.1, hsi.2.1 t0 ht0]
    next hte =>
      have hadv := advance_inl_props env _ _ h
      refine ⟨?_, le_trans hsi.2.2 hadv.2⟩
      intro t0 ht0
      rw [hadv.1, hsi.2.1 t0 ht0]

theorem engineLoop_te {σ : Type} (env : PageEnv σ) (fuel : Nat) :
    ∀ (st : EngineState σ) (t : Nat), st.totalExpected = some t →
      (engineLoop env fuel st).totalExpected = some t := by
  induction fuel with
  | zero => intro st t ht; exact ht
  | succ g ih =>
    intro st t ht
    show (match iterStep env st with
          | Sum.inl s2 => s2
          | Sum.inr s2 => engineLoop env g s2).totalExpected = some t
    cases h : iterStep env st with
    | inl s2 => exact (iterStep_inl_props env st s2 h).1 t ht
    | inr s2 => exact ih s2 t ((iterStep_inr_props env st s2 h).2.2.1 t ht)

theorem engineLoop_len {σ : Type} (env : PageEnv σ) (fuel : Nat) :
    ∀ st : EngineState σ,
      st.coll.products.length ≤ (engineLoop env fuel st).coll.products.length := by
  induction fuel with
  | zero => intro st; exact Nat.le_refl _
  | succ g ih =>
    intro st
    show st.coll.products.length ≤
      (match iterStep env st with
       | Sum.inl s2 => s2
       | Sum.inr s2 => engineLoop env g s2).coll.products.length
    cases h : iterStep env st with
    | inl s2 => exact (iterStep_inl_props env st s2 h).2
    | inr s2 => exact le_trans (iterStep_inr_props env st s2 h).2.2.2 (ih s2)

theorem engineLoop_fuel_stable {σ : Type} (env : PageEnv σ) :
    ∀ (f1 f2 : Nat) (st : EngineState σ),
      maxPages + 1 < st.attempts + f1 → maxPages + 1 < st.attempts + f2 →
      0 < f1 → 0 < f2 →
      engineLoop env f1 st = engineLoop env f2 st := by
  intro f1
  induction f1 with
  | zero =>
    intro f2 st _ _ h0 _
    exact absurd h0 (by omega)
  | succ g1 ih =>
    intro f2 st hf1 hf2 _ hpos2
    cases f2 with
    | zero => exact absurd hpos2 (by omega)
    | succ g2 =>
      show (match iterStep env st with
            | Sum.inl s2 => s2
            | Sum.inr s2 => engineLoop env g1 s2)
          = (match iterStep env st with
            | Sum.inl s2 => s2
            | Sum.inr s2 => engineLoop env g2 s2)
      cases h : iterStep env st with
      | inl s2 => rfl
      | inr s2 =>
        have hp := iterStep_inr_props env st s2 h
        have ha1 : s2.attempts = st.attempts + 1 := hp.1
        have ha2 : st.attempts + 1 ≤ maxPages := hp.2.1
        have hg1 : 0 < g1 := by omega
        have hg2 : 0 < g2 := by omega
        exact ih g2 s2 (by omega) (by omega) hg1 hg2

theorem finalTrim_ne_nil (te : Option Nat) (l : List Row) (h : 0 < l.length) :
    finalTrim te l ≠ [] := by
  cases te with
  | none =>
    show l ≠ []
    intro he
    rw [he] at h
    simp at h
  | some t =>
    show (if t ≠ 0 ∧ t < l.length then l.take t else l) ≠ []
    by_cases hc : t ≠ 0 ∧ t < l.length
    · rw [if_pos hc]
      intro he
      have hlen : (l.take t).length = t := by
        rw [List.length_take]
        omega
      rw [he] at hlen
      simp at hlen
      omega
    · rw [if_neg hc]
      intro he
      rw [he] at h
      simp at h

theorem finalTrim_length_le_of_pos (t : Nat) (l : List Row) (ht : t ≠ 0) :
    (finalTrim (some t) l).length ≤ t := by
  show (if t ≠ 0 ∧ t < l.length then l.take t else l).length ≤ t
  by_cases hc : t ≠ 0 ∧ t < l.length
  · rw [if_pos hc, List.length_take]
    omega
  · rw [if_neg hc]
    have hnl : ¬ t < l.length := fun hlt => hc ⟨ht, hlt⟩
    omega

theorem extractTableData_false_eq {σ : Type} (env : PageEnv σ) (s0 : σ)
    (df : Bool) :
    extractTableData env s0 df false =
      finalTrim
        (engineLoop env (maxPages + 2)
          { coll := if df then { products := syntheticErrorRows, keys := [] }
                    else addRows { products := [], keys := [] } (jsFullExtract env s0)
          , totalExpected := (env.indicator s0).map (fun p => p.2)
          , attempts := 0, pg := s0 }).totalExpected
        (engineLoop env (maxPages + 2)
          { coll := if df then { products := syntheticErrorRows, keys := [] }
                    else addRows { products := [], keys := [] } (jsFullExtract env s0)
          , totalExpected := (env.indicator s0).map (fun p => p.2)
          , attempts := 0, pg := s0 }).coll.products := rfl

/-- An inert page (no indicator, no rows, no controls), used for the closed
instances below. -/
def trivialUnitEnv : PageEnv Unit :=
  { indicator := fun _ => none
  , curRows := fun _ => []
  , nextCtls := fun _ => []
  , clickNext := fun s _ => s
  , loadMoreVisible := fun _ => false
  , clickLoadMore := fun _ => ()
  , scrollPage := fun _ => ()
  , tableRows := fun _ => []
  , groupRows := fun _ => []
  , pageTexts := fun _ => [] }

/-- Claim C7: the extraction engine never returns an empty list — when
neither a table nor a repeating group yields rows the structural pass
produces the single explanatory placeholder row, and when the structural
extraction errors outright the engine substitutes the clearly-marked
synthetic rows instead of aborting. -/
theorem c7_extraction_never_empty {σ : Type} (env : PageEnv σ) (s0 : σ)
    (df ofail : Bool) :
    extractTableData env s0 df ofail ≠ []
    ∧ (env.tableRows s0 = [] → env.groupRows s0 = [] →
        jsFullExtract env s0 = [placeholderRow (env.pageTexts s0)])
    ∧ extractTableData trivialUnitEnv () true false = syntheticErrorRows := by
  refine ⟨?_, ?_, ?_⟩
  · cases ofail with
    | true =>
      show [errorRow "error"] ≠ []
      simp
    | false =>
      rw [extractTableData_false_eq]
      apply finalTrim_ne_nil
      refine lt_of_lt_of_le ?_ (engineLoop_len env (maxPages + 2) _)
      show 0 < (if df then ({ products := syntheticErrorRows, keys := [] } : Collector)
          else addRows { products := [], keys := [] } (jsFullExtract env s0)).products.length
      cases df with
      | true => simp [syntheticErrorRows]
      | false =>
        simp only [Bool.false_eq_true, if_false]
        apply addRows_from_empty_pos
        unfold jsFullExtract
        split
        · assumption
        · split
          · assumption
          · simp
  · intro h1 h2
    unfold jsFullExtract
    rw [if_neg (by simp [h1]), if_neg (by simp [h2])]
  · rfl

/-- Witness for C7 at the inert page: the result is non-empty and the
structural pass yields exactly the placeholder row. -/
theorem c7_extraction_never_empty_witness :
    extractTableData trivialUnitEnv () false false ≠ []
    ∧ jsFullExtract trivialUnitEnv () = [placeholderRow []] :=
  ⟨(c7_extraction_never_empty trivialUnitEnv () false false).1,
   (c7_extraction_never_empty trivialUnitEnv () false false).2.1 rfl rfl⟩

/-- Claim C1 (amended): the paginated extraction loop always terminates — its
result is independent of any fuel beyond the attempt ceiling — checking each
iteration in order: total-reached (stop and trim), attempt ceiling (stop
without failing), no strategy progressed (stop); and when a
`Showing X of N products` indicator with a positive N is present, the
returned row list never holds more than N rows (for N = 0 the truthiness
guard skips the trim — see the counterexample). -/
theorem c1_engine_termination_and_total_bound {σ : Type} (env : PageEnv σ)
    (s0 : σ) (df ofail : Bool) (shown n : Nat)
    (hind : env.indicator s0 = some (shown, n)) (hn : 1 ≤ n) :
    (∀ (fuel : Nat) (st : EngineState σ), maxPages + 2 ≤ fuel → st.attempts = 0 →
        engineLoop env fuel st = engineLoop env (maxPages + 2) st)
    ∧ (extractTableData env s0 df ofail).length ≤ n := by
  have hm : maxPages = 200 := rfl
  constructor
  · intro fuel st hf ha
    exact engineLoop_fuel_stable env fuel (maxPages + 2) st
      (by omega) (by omega) (by omega) (by omega)
  · cases ofail with
    | true =>
      show ([errorRow "error"]).length ≤ n
      simpa using hn
    | false =>
      rw [extractTableData_false_eq]
      have hte0 :
          ({ coll := if df then { products := syntheticErrorRows, keys := [] }
                     else addRows { products := [], keys := [] } (jsFullExtract env s0)
           , totalExpected := (env.indicator s0).map (fun p => p.2)
           , attempts := 0, pg := s0 } : EngineState σ).totalExpected = some n := by
        show (env.indicator s0).map (fun p => p.2) = some n
        rw [hind]
        rfl
      rw [engineLoop_te env (maxPages + 2) _ n hte0]
      exact finalTrim_length_le_of_pos n _ (by omega)

/-- The environment of the C1 witness: the indicator already shows 5 of 5. -/
def c1WitnessEnv : PageEnv Unit :=
  { indicator := fun _ => some (5, 5)
  , curRows := fun _ => []
  , nextCtls := fun _ => []
  , clickNext := fun s _ => s
  , loadMoreVisible := fun _ => false
  , clickLoadMore := fun _ => ()
  , scrollPage := fun _ => ()
  , tableRows := fun _ => []
  , groupRows := fun _ => []
  , pageTexts := fun _ => [] }

/-- Witness for C1: with a `Showing 5 of 5 products` indicator the loop's
result is fuel-independent beyond the ceiling and holds at most 5 rows. -/
theorem c1_engine_termination_and_total_bound_witness :
    engineLoop c1WitnessEnv 500
        { coll := { products := [], keys := [] }, totalExpected := some 5
        , attempts := 0, pg := () }
      = engineLoop c1WitnessEnv (maxPages + 2)
        { coll := { products := [], keys := [] }, totalExpected := some 5
        , attempts := 0, pg := () }
    ∧ (extractTableData c1WitnessEnv () false false).length ≤ 5 :=
  ⟨(c1_engine_termination_and_total_bound c1WitnessEnv () false false 5 5 rfl
      (by decide)).1 500 _ (by decide) rfl,
   (c1_engine_termination_and_total_bound c1WitnessEnv () false false 5 5 rfl
      (by decide)).2⟩

/-- The environment of the C1 counterexample: the page announces
`Showing 0 of 0 products` and carries neither tables nor groups. -/
def zeroTotalEnv : PageEnv Unit :=
  { indicator := fun _ => some (0, 0)
  , curRows := fun _ => []
  , nextCtls := fun _ => []
  , clickNext := fun s _ => s
  , loadMoreVisible := fun _ => false
  , clickLoadMore := fun _ => ()
  , scrollPage := fun _ => ()
  , tableRows := fun _ => []
  , groupRows := fun _ => []
  , pageTexts := fun _ => [] }

/-- Counterexample to C1 as stated: with a `Showing 0 of 0 products`
indicator present (N = 0) the engine still returns one placeholder row — the
trim guard `if total_expected and ...` is skipped for a zero total, so the
returned list exceeds N. -/
theorem c1_total_zero_counterexample :
    zeroTotalEnv.indicator () = some (0, 0)
    ∧ extractTableData zeroTotalEnv () false false = [placeholderRow []]
    ∧ 0 < (extractTableData zeroTotalEnv () false false).length := by
  refine ⟨rfl, rfl, ?_⟩
  rw [show extractTableData zeroTotalEnv () false false = [placeholderRow []] from rfl]
  simp

theorem firstEligibleIdx_spec (cs : List Ctl) :
    ∀ i : Nat, firstEligibleIdx cs = some i →
      ∃ c, cs.get? i = some c ∧ ctlEligible c = true := by
  induction cs with
  | nil => intro i h; cases h
  | cons c rest ih =>
    intro i h
    unfold firstEligibleIdx at h
    split at h
    · next hc =>
      cases h
      exact ⟨c, rfl, hc⟩
    · next hc =>
      cases hr : firstEligibleIdx rest with
      | none =>
        rw [hr] at h
        cases h
      | some j =>
        rw [hr] at h
        have hj : j + 1 = i := by
          simpa using h
        rcases ih j hr with ⟨c2, hg, he⟩
        subst hj
        exact ⟨c2, hg, he⟩

/-- Claim C6 (amended): the Advance step tries the strategies in strict
priority order — first the pagination next control, clicking only the first
candidate that is enabled, visible, and neither `disabled` nor
`aria-disabled=true`, and continuing the loop whenever that click added at
least one newly-deduplicated row — then load-more, then scroll; a scroll
counts as progress only when it added a new row, but a load-more click causes
another loop iteration unconditionally, even when it produced no new rows
(see the counterexample). -/
theorem c6_advance_priority_and_progress {σ : Type} (env : PageEnv σ)
    (st1 s2 : EngineState σ) (cs : List Ctl) (i : Nat) :
    (firstEligible cs = some i →
      ∃ c, cs.get? i = some c ∧ c.enabledVisible = true ∧ c.disabledAttr = none
        ∧ ariaIsTrue c.ariaDisabled = false)
    ∧ (st1.attempts + 1 ≤ maxPages →
        (tryNext env { st1 with attempts := st1.attempts + 1 }).2 = true →
        advance env st1
          = Sum.inr (tryNext env { st1 with attempts := st1.attempts + 1 }).1)
    ∧ (advance env st1 = Sum.inr s2 →
        st1.coll.products.length < s2.coll.products.length
        ∨ ∃ s, env.loadMoreVisible s = true ∧ s2.pg = env.clickLoadMore s) := by
  refine ⟨?_, ?_, ?_⟩
  · intro h
    rcases firstEligibleIdx_spec cs i h with ⟨c, hg, he⟩
    refine ⟨c, hg, ?_, ?_, ?_⟩
    · have := he
      simp only [ctlEligible, Bool.and_eq_true] at this
      exact this.1.1
    · have := he
      simp only [ctlEligible, Bool.and_eq_true] at this
      have hd : c.disabledAttr.isSome = false := by
        simpa using this.1.2
      cases hda : c.disabledAttr with
      | none => rfl
      | some a => rw [hda] at hd; simp at hd
    · have := he
      simp only [ctlEligible, Bool.and_eq_true] at this
      simpa using this.2
  · intro hcap hprog
    unfold advance
    rw [if_neg (by
      show ¬ maxPages < ({ st1 with attempts := st1.attempts + 1 } : EngineState σ).attempts
      exact Nat.not_lt.mpr hcap)]
    rw [if_pos hprog]
  · intro h
    exact (advance_inr_props env st1 s2 h).2.2.2.2

/-- An eligible next control. -/
def eligCtlEx : Ctl :=
  { enabledVisible := true, disabledAttr := none, ariaDisabled := none }

/-- A disabled next control (carries a `disabled` attribute). -/
def disabledCtlEx : Ctl :=
  { enabledVisible := true, disabledAttr := some "", ariaDisabled := none }

/-- Witness for C6: with a disabled control first in the candidate list, the
strategy clicks the second, non-disabled one. -/
theorem c6_advance_priority_and_progress_witness :
    ∃ c, [disabledCtlEx, eligCtlEx].get? 1 = some c ∧ c.enabledVisible = true
      ∧ c.disabledAttr = none ∧ ariaIsTrue c.ariaDisabled = false :=
  (c6_advance_priority_and_progress trivialUnitEnv
    { coll := { products := [], keys := [] }, totalExpected := none
    , attempts := 0, pg := () }
    { coll := { products := [], keys := [] }, totalExpected := none
    , attempts := 0, pg := () }
    [disabledCtlEx, eligCtlEx] 1).1 rfl

/-- The environment of the C6 counterexample: only a load-more control is
present and clicking it yields no rows at all. -/
def loadMoreEnv : PageEnv Unit :=
  { indicator := fun _ => none
  , curRows := fun _ => []
  , nextCtls := fun _ => []
  , clickNext := fun s _ => s
  , loadMoreVisible := fun _ => true
  , clickLoadMore := fun _ => ()
  , scrollPage := fun _ => ()
  , tableRows := fun _ => []
  , groupRows := fun _ => []
  , pageTexts := fun _ => [] }

/-- The loop state before the load-more click of the counterexample. -/
def c6StateEx : EngineState Unit :=
  { coll := { products := [[("Name", "A")]], keys := ["A"] }
  , totalExpected := none, attempts := 0, pg := () }

/-- Counterexample to C6 as stated: the iteration continues (`Sum.inr`, a new
loop pass with the attempt counter bumped) although the load-more click
deduplicated zero new rows — the product list is unchanged — contradicting
"a strategy counts as progress only when it produced at least one
newly-deduplicated row". -/
theorem c6_load_more_progress_without_rows_counterexample :
    iterStep loadMoreEnv c6StateEx
      = Sum.inr
        { coll := { products := [[("Name", "A")]], keys := ["A"] }
        , totalExpected := none, attempts := 1, pg := () }
    ∧ (({ coll := { products := [[("Name", "A")]], keys := ["A"] }
        , totalExpected := none, attempts := 1, pg := () } :
          EngineState Unit).coll.products.length
        = c6StateEx.coll.products.length) := by
  exact ⟨rfl, rfl⟩
